import Mathlib

/-!
Verification of the acorntorrent core: metainfo decoding, info-hash
computation, and tracker-response decoding.

Bytes are modelled as `List Nat`; strings produced by UTF-8 validation keep
their byte representation.  The external bencode value model, its
parse/encode operations, the SHA-1 digest and the standard-library IP-address
parsing are not part of the repository: they are modelled from the
specification of their interface boundary.  Everything else is a direct
translation of `src/util.rs`, `src/metainfo.rs` and `src/tracker.rs`.
-/

/-- A wire byte (0..255); the embedding does not restrict the range, it only
reads values the translated code reads. -/
abbrev Byte := Nat

/-- ASCII decimal digit test. -/
def isDigit (c : Byte) : Bool := 48 ≤ c && c ≤ 57

/-- UTF-8 continuation byte test (0x80..0xBF). -/
def isCont (c : Byte) : Bool := 128 ≤ c && c ≤ 191

/-- Modelled from the spec: the UTF-8 validity check performed by the
standard library `str::from_utf8` (well-formed sequences only: no overlongs,
no surrogates, maximum U+10FFFF). -/
def validUtf8 : List Byte → Bool
  | [] => true
  | c :: rest =>
    if c ≤ 127 then validUtf8 rest
    else if 194 ≤ c && c ≤ 223 then
      match rest with
      | c1 :: r => isCont c1 && validUtf8 r
      | [] => false
    else if c = 224 then
      match rest with
      | c1 :: c2 :: r => (160 ≤ c1 && c1 ≤ 191) && isCont c2 && validUtf8 r
      | _ => false
    else if 225 ≤ c && c ≤ 236 then
      match rest with
      | c1 :: c2 :: r => isCont c1 && isCont c2 && validUtf8 r
      | _ => false
    else if c = 237 then
      match rest with
      | c1 :: c2 :: r => (128 ≤ c1 && c1 ≤ 159) && isCont c2 && validUtf8 r
      | _ => false
    else if 238 ≤ c && c ≤ 239 then
      match rest with
      | c1 :: c2 :: r => isCont c1 && isCont c2 && validUtf8 r
      | _ => false
    else if c = 240 then
      match rest with
      | c1 :: c2 :: c3 :: r =>
        (144 ≤ c1 && c1 ≤ 191) && isCont c2 && isCont c3 && validUtf8 r
      | _ => false
    else if 241 ≤ c && c ≤ 243 then
      match rest with
      | c1 :: c2 :: c3 :: r => isCont c1 && isCont c2 && isCont c3 && validUtf8 r
      | _ => false
    else if c = 244 then
      match rest with
      | c1 :: c2 :: c3 :: r =>
        (128 ≤ c1 && c1 ≤ 143) && isCont c2 && isCont c3 && validUtf8 r
      | _ => false
    else false

/-- Bytes of an ASCII string literal (used for the fixed dictionary keys of
the wire format). -/
def bs (s : String) : List Byte := s.data.map Char.toNat

/-- Rendering of a byte list into a `String` for error messages (the Rust
code interpolates already-validated UTF-8 strings and ASCII keys into its
error messages). -/
def strOfBytes (b : List Byte) : String := String.mk (b.map Char.ofNat)

/-- Byte-wise ASCII lowercasing.  The source calls Rust `to_lowercase`
(Unicode); for the single use, comparison against the ASCII string
`"utf-8"`, the two agree, since only the ASCII capitals U, T, F lowercase to
u, t, f. -/
def asciiLower (b : List Byte) : List Byte :=
  b.map fun c => if 65 ≤ c && c ≤ 90 then c + 32 else c

/-- Chunking worker: structural recursion on a fuel bound of the list
length, so that the definition evaluates in the kernel. -/
def chunksGo (n : Nat) : Nat → List α → List (List α)
  | _, [] => []
  | 0, _ :: _ => []
  | fuel + 1, a :: t =>
    if n = 0 then []
    else List.take n (a :: t) :: chunksGo n fuel (List.drop n (a :: t))

/-- `slice::chunks n` of Rust: splits a list into consecutive chunks of `n`
elements, the last one possibly shorter.  Returns `[]` for `n = 0` (Rust
panics there; the translated code only uses the nonzero constants 6, 18 and
64). -/
def chunksOf (n : Nat) (l : List α) : List (List α) :=
  chunksGo n l.length l

/-- The chunking worker ignores the exact fuel, as long as it bounds the
list length. -/
theorem chunksGo_fuel (n : Nat) : ∀ (f₁ f₂ : Nat) (l : List α),
    l.length ≤ f₁ → l.length ≤ f₂ → chunksGo n f₁ l = chunksGo n f₂ l := by
  intro f₁
  induction f₁ with
  | zero =>
    intro f₂ l h1 h2
    have : l = [] := List.eq_nil_of_length_eq_zero (by omega)
    subst this
    cases f₂ <;> simp [chunksGo]
  | succ f₁ ih =>
    intro f₂ l h1 h2
    cases l with
    | nil => cases f₂ <;> simp [chunksGo]
    | cons a t =>
      cases f₂ with
      | zero => simp at h2
      | succ f₂ =>
        simp only [chunksGo]
        by_cases hn : n = 0
        · simp [hn]
        · rw [if_neg hn, if_neg hn]
          congr 1
          have hd : (List.drop n (a :: t)).length ≤ t.length := by
            simp only [List.length_drop, List.length_cons]
            omega
          simp only [List.length_cons] at h1 h2
          exact ih f₂ _ (by omega) (by omega)

theorem chunksOf_nil (n : Nat) : chunksOf n ([] : List α) = [] := by
  simp [chunksOf, chunksGo]

theorem chunksOf_cons (n : Nat) (hn : n ≠ 0) (a : α) (t : List α) :
    chunksOf n (a :: t) =
      List.take n (a :: t) :: chunksOf n (List.drop n (a :: t)) := by
  unfold chunksOf
  simp only [List.length_cons, chunksGo, if_neg hn]
  congr 1
  apply chunksGo_fuel
  · simp only [List.length_drop, List.length_cons]
    omega
  · exact Nat.le_refl _

/-- Number of chunks when the length is an exact multiple. -/
theorem chunksOf_length (n m : Nat) (hn : 0 < n) (l : List α)
    (h : l.length = n * m) : (chunksOf n l).length = m := by
  induction m generalizing l with
  | zero =>
    rw [Nat.mul_zero] at h
    have : l = [] := List.eq_nil_of_length_eq_zero h
    subst this
    simp [chunksOf_nil]
  | succ m ih =>
    rw [Nat.mul_succ] at h
    cases l with
    | nil => simp at h; omega
    | cons a t =>
      rw [chunksOf_cons n (by omega)]
      have hd : (List.drop n (a :: t)).length = n * m := by
        simp only [List.length_drop, List.length_cons]
        simp only [List.length_cons] at h
        omega
      simp [ih _ hd]

/-- The `k`-th chunk, when the length is an exact multiple. -/
theorem chunksOf_get (n m k : Nat) (hn : 0 < n) (l : List α)
    (h : l.length = n * m) (hk : k < m) :
    (chunksOf n l).get? k = some ((l.drop (n * k)).take n) := by
  induction k generalizing l m with
  | zero =>
    cases m with
    | zero => omega
    | succ m' =>
      rw [Nat.mul_succ] at h
      cases l with
      | nil => simp at h; omega
      | cons a t =>
        rw [chunksOf_cons n (by omega)]
        simp
  | succ k ih =>
    cases m with
    | zero => omega
    | succ m' =>
      rw [Nat.mul_succ] at h
      cases l with
      | nil => simp at h; omega
      | cons a t =>
        rw [chunksOf_cons n (by omega)]
        have hd : (List.drop n (a :: t)).length = n * m' := by
          simp only [List.length_drop, List.length_cons]
          simp only [List.length_cons] at h
          omega
        have hk' : k < m' := by omega
        have := ih m' (List.drop n (a :: t)) hd hk'
        simp only [List.get?_cons_succ]
        rw [this, List.drop_drop]
        congr 2
        ring

/-- Modelled from the spec: the generic structured-data value of the external
bencode library — byte-string, integer, list, and ordered-key dictionary.
Dictionaries are lists of key/value pairs in iteration order (the Rust side
uses a `BTreeMap`, whose iteration order is sorted by key; parsing stores
pairs in source order, and every access in the translated code is a key
lookup or an in-order walk). -/
inductive BencodeValue where
  | integer : Int → BencodeValue
  | byteString : List Byte → BencodeValue
  | list : List BencodeValue → BencodeValue
  | dictionary : List (List Byte × BencodeValue) → BencodeValue

/-- Dictionary lookup (`BTreeMap::get` / first match by key). -/
def bfind (d : List (List Byte × BencodeValue)) (k : List Byte) :
    Option BencodeValue :=
  match d with
  | [] => none
  | (k', v) :: r => if k' = k then some v else bfind r k

/-- ASCII decimal digits of a natural number, most significant first. -/
def natDigits (n : Nat) : List Byte :=
  if n < 10 then [48 + n]
  else natDigits (n / 10) ++ [48 + n % 10]
termination_by n
decreasing_by
  exact Nat.div_lt_self (by omega) (by omega)

/-- ASCII decimal digits of an integer, with a leading minus sign when
negative. -/
def intDigits (i : Int) : List Byte :=
  if i < 0 then 45 :: natDigits i.natAbs else natDigits i.toNat

mutual

/-- Modelled from the spec: the external bencode encoder
(`encoder::encode_to_bytes`), serializing a value tree to its canonical byte
form — `i<int>e` integers, `<len>:<bytes>` strings, `l…e` lists, `d…e`
dictionaries with keys emitted in stored (sorted) order. -/
def encV : BencodeValue → List Byte
  | .integer i => 105 :: intDigits i ++ [101]
  | .byteString s => natDigits s.length ++ 58 :: s
  | .list vs => 108 :: encVList vs ++ [101]
  | .dictionary ps => 100 :: encVPairs ps ++ [101]

/-- Encoding of the elements of a bencode list, concatenated. -/
def encVList : List BencodeValue → List Byte
  | [] => []
  | v :: r => encV v ++ encVList r

/-- Encoding of the key/value pairs of a bencode dictionary, concatenated. -/
def encVPairs : List (List Byte × BencodeValue) → List Byte
  | [] => []
  | (k, v) :: r => (natDigits k.length ++ 58 :: k) ++ encV v ++ encVPairs r

end

/-- The external encoder entry point. -/
def encode_to_bytes (v : BencodeValue) : List Byte := encV v

/-- Truncation to 32 bits. -/
def w32 (n : Nat) : Nat := n % 4294967296

/-- 32-bit left rotation. -/
def rotl32 (s w : Nat) : Nat := w32 ((w <<< s) ||| (w >>> (32 - s)))

/-- Big-endian bytes of a 32-bit word. -/
def be32 (w : Nat) : List Byte :=
  [w / 16777216 % 256, w / 65536 % 256, w / 256 % 256, w % 256]

/-- Big-endian bytes of a 64-bit word. -/
def be64 (w : Nat) : List Byte :=
  [w / 2 ^ 56 % 256, w / 2 ^ 48 % 256, w / 2 ^ 40 % 256, w / 2 ^ 32 % 256,
   w / 2 ^ 24 % 256, w / 2 ^ 16 % 256, w / 2 ^ 8 % 256, w % 256]

/-- SHA-1 message padding: a 0x80 byte, zeros to 56 mod 64, and the message
bit length as a big-endian 64-bit value. -/
def sha1pad (msg : List Byte) : List Byte :=
  msg ++ 128 :: (List.replicate ((119 - msg.length % 64) % 64) 0
    ++ be64 (8 * msg.length))

/-- The sixteen 32-bit big-endian words of a 64-byte SHA-1 block. -/
def blockWords (b : List Byte) : List Nat :=
  (List.range 16).map fun j =>
    ((b.getD (4 * j) 0) <<< 24) ||| ((b.getD (4 * j + 1) 0) <<< 16) |||
      ((b.getD (4 * j + 2) 0) <<< 8) ||| (b.getD (4 * j + 3) 0)

/-- Message-schedule extension; `acc` holds the words produced so far in
reverse order. -/
def extendWords : Nat → List Nat → List Nat
  | 0, acc => acc.reverse
  | k + 1, acc =>
    extendWords k
      (rotl32 1 ((acc.getD 2 0) ^^^ (acc.getD 7 0) ^^^ (acc.getD 13 0) ^^^
        (acc.getD 15 0)) :: acc)

/-- The 80-entry SHA-1 message schedule of a block. -/
def sha1sched (b : List Byte) : List Nat :=
  extendWords 64 (blockWords b).reverse

/-- SHA-1 working state. -/
structure Sha1State where
  a : Nat
  b : Nat
  c : Nat
  d : Nat
  e : Nat

/-- SHA-1 round function selection. -/
def sha1f (i b c d : Nat) : Nat :=
  if i < 20 then (b &&& c) ||| ((b ^^^ 4294967295) &&& d)
  else if i < 40 then b ^^^ c ^^^ d
  else if i < 60 then (b &&& c) ||| (b &&& d) ||| (c &&& d)
  else b ^^^ c ^^^ d

/-- SHA-1 round constants. -/
def sha1k (i : Nat) : Nat :=
  if i < 20 then 1518500249
  else if i < 40 then 1859775393
  else if i < 60 then 2400959708
  else 3395469782

/-- One SHA-1 round; the pair is (round index, schedule word). -/
def sha1round (st : Sha1State) (iw : Nat × Nat) : Sha1State :=
  { a := w32 (rotl32 5 st.a + sha1f iw.1 st.b st.c st.d + st.e + sha1k iw.1
      + iw.2),
    b := st.a,
    c := rotl32 30 st.b,
    d := st.c,
    e := st.d }

/-- Processing of one 64-byte block. -/
def sha1block (h : Sha1State) (blk : List Byte) : Sha1State :=
  let st := (sha1sched blk).enum.foldl sha1round h
  { a := w32 (h.a + st.a), b := w32 (h.b + st.b), c := w32 (h.c + st.c),
    d := w32 (h.d + st.d), e := w32 (h.e + st.e) }

/-- Modelled from the spec: the external SHA-1 digest (`ring`'s
`SHA1_FOR_LEGACY_USE_ONLY`), mapping arbitrary bytes to a 20-byte digest. -/
def sha1 (msg : List Byte) : List Byte :=
  let h := (chunksOf 64 (sha1pad msg)).foldl sha1block
    ⟨1732584193, 4023233417, 2562383102, 271733878, 3285377520⟩
  be32 h.a ++ be32 h.b ++ be32 h.c ++ be32 h.d ++ be32 h.e

/-- The SHA-1 digest is always exactly 20 bytes. -/
theorem sha1_length (msg : List Byte) : (sha1 msg).length = 20 := by
  simp [sha1, be32]

/-- Longest digit run at the head of a byte list, and the remainder. -/
def takeDigits : List Byte → List Byte × List Byte
  | [] => ([], [])
  | c :: r =>
    if isDigit c then
      let p := takeDigits r
      (c :: p.1, p.2)
    else ([], c :: r)

/-- Value of a decimal-digit byte run. -/
def digitsToNat (ds : List Byte) : Nat :=
  ds.foldl (fun a c => 10 * a + (c - 48)) 0

/-- Byte-string item `<len>:<bytes>` of the bencode grammar, from an input
whose head is a digit. -/
def parseStrFrom (b : List Byte) : Option (List Byte × List Byte) :=
  let p := takeDigits b
  if p.1.isEmpty then none
  else
    match p.2 with
    | 58 :: r2 =>
      let n := digitsToNat p.1
      if n ≤ r2.length then some (r2.take n, r2.drop n) else none
    | _ => none

/-- Digit run terminated by `e`, for integer items. -/
def parseDigitsE (b : List Byte) : Option (Nat × List Byte) :=
  let p := takeDigits b
  if p.1.isEmpty then none
  else
    match p.2 with
    | 101 :: r2 => some (digitsToNat p.1, r2)
    | _ => none

/-- Integer item body (after the leading `i`): optional minus sign, digits,
terminating `e`. -/
def parseIntAfterI (b : List Byte) : Option (Int × List Byte) :=
  match b with
  | [] => none
  | c :: r =>
    if c = 45 then (parseDigitsE r).map fun p => (-(p.1 : Int), p.2)
    else (parseDigitsE (c :: r)).map fun p => ((p.1 : Int), p.2)

mutual

/-- Modelled from the spec: one bencode value of the external recursive
descent grammar — integer `i…e`, byte string `<len>:…`, list `l…e`,
dictionary `d…e` — parsed from a prefix of the input, returning the
unconsumed suffix.  The first argument is recursion fuel; `parse_bencode`
supplies enough for any input. -/
def parseV : Nat → List Byte → Option (BencodeValue × List Byte)
  | 0, _ => none
  | _ + 1, [] => none
  | n + 1, c :: r =>
    if c = 105 then (parseIntAfterI r).map fun p => (.integer p.1, p.2)
    else if c = 108 then (parseItems n r).map fun p => (.list p.1, p.2)
    else if c = 100 then (parsePairs n r).map fun p => (.dictionary p.1, p.2)
    else if isDigit c then
      (parseStrFrom (c :: r)).map fun p => (.byteString p.1, p.2)
    else none

/-- Elements of a bencode list up to the closing `e`. -/
def parseItems : Nat → List Byte → Option (List BencodeValue × List Byte)
  | 0, _ => none
  | _ + 1, [] => none
  | n + 1, c :: r =>
    if c = 101 then some ([], r)
    else
      (parseV n (c :: r)).bind fun p =>
        (parseItems n p.2).map fun q => (p.1 :: q.1, q.2)

/-- Key/value pairs of a bencode dictionary up to the closing `e`. -/
def parsePairs :
    Nat → List Byte → Option (List (List Byte × BencodeValue) × List Byte)
  | 0, _ => none
  | _ + 1, [] => none
  | n + 1, c :: r =>
    if c = 101 then some ([], r)
    else
      (parseStrFrom (c :: r)).bind fun p =>
        (parseV n p.2).bind fun q =>
          (parsePairs n q.2).map fun w => ((p.1, q.1) :: w.1, w.2)

end

/-- Modelled from the spec: the external parse operation
(`parse_bencode`) — parses a prefix of the input into one value and returns
the unconsumed suffix. -/
def parse_bencode (b : List Byte) : Option (BencodeValue × List Byte) :=
  parseV (2 * b.length + 2) b

theorem takeDigits_eq (b : List Byte) :
    (takeDigits b).1 ++ (takeDigits b).2 = b := by
  induction b with
  | nil => rfl
  | cons c r ih =>
    by_cases hc : isDigit c
    · simp [takeDigits, hc, ih]
    · simp [takeDigits, hc]

theorem takeDigits_digits (b : List Byte) :
    ∀ d ∈ (takeDigits b).1, isDigit d = true := by
  induction b with
  | nil => simp [takeDigits]
  | cons c r ih =>
    by_cases hc : isDigit c
    · simp [takeDigits, hc]
      exact ih
    · simp [takeDigits, hc]

theorem takeDigits_stop (b : List Byte) :
    ∀ x xs, (takeDigits b).2 = x :: xs → isDigit x = false := by
  induction b with
  | nil => simp [takeDigits]
  | cons c r ih =>
    by_cases hc : isDigit c
    · simp only [takeDigits, hc, if_true]
      exact ih
    · simp only [takeDigits, hc, if_false]
      intro x xs hx
      cases hx
      simpa using hc

theorem takeDigits_append (ds : List Byte) (x : Byte) (r : List Byte)
    (hds : ∀ d ∈ ds, isDigit d = true) (hx : isDigit x = false) :
    takeDigits (ds ++ x :: r) = (ds, x :: r) := by
  induction ds with
  | nil => simp [takeDigits, hx]
  | cons d t ih =>
    have hd : isDigit d = true := hds d (by simp)
    have ht : ∀ d ∈ t, isDigit d = true := fun e he => hds e (by simp [he])
    simp [takeDigits, hd, ih ht]

theorem cons_eq_append {α : Type} {c : α} {r c₁ rest : List α} (hne : c₁ ≠ [])
    (h : c :: r = c₁ ++ rest) : ∃ t, c₁ = c :: t ∧ r = t ++ rest := by
  cases c₁ with
  | nil => exact absurd rfl hne
  | cons a t =>
    injection h with h1 h2
    exact ⟨t, by rw [h1], h2⟩

/-- A successful byte-string parse depends only on the bytes it consumed:
re-running on the consumed bytes followed by any other suffix succeeds with
that suffix as the remainder. -/
theorem parseStrFrom_frame {b s rest : List Byte}
    (h : parseStrFrom b = some (s, rest)) :
    ∃ c, c ≠ [] ∧ b = c ++ rest ∧
      ∀ r', parseStrFrom (c ++ r') = some (s, r') := by
  have hsplit := takeDigits_eq b
  have hdig := takeDigits_digits b
  simp only [parseStrFrom] at h
  split at h
  · exact absurd h (by simp)
  · split at h
    · next r2 heq =>
      split at h
      · next hn =>
        injection h with h'
        injection h' with hs hrest
        refine ⟨(takeDigits b).1 ++ 58 :: s, by simp, ?_, ?_⟩
        · conv_lhs => rw [← hsplit]
          rw [heq, ← hs, ← hrest]
          simp [List.take_append_drop]
        · intro r'
          have hslen : s.length = digitsToNat (takeDigits b).1 := by
            subst hs
            simp [List.length_take]
            omega
          have hfix : takeDigits ((takeDigits b).1 ++ 58 :: (s ++ r')) =
              ((takeDigits b).1, 58 :: (s ++ r')) :=
            takeDigits_append _ _ _ hdig (by rfl)
          have hne : ((takeDigits b).1.isEmpty) = false := by
            next hemp _ => simpa using hemp
          simp only [List.append_assoc, List.cons_append, List.nil_append]
          simp only [parseStrFrom, hfix, hne, Bool.false_eq_true, if_false]
          have hle : digitsToNat (takeDigits b).1 ≤ (s ++ r').length := by
            simp [hslen]
          rw [if_pos hle, List.take_left' hslen, List.drop_left' hslen]
      · exact absurd h (by simp)
    · exact absurd h (by simp)

/-- Like `parseStrFrom_frame`, for the integer digit run. -/
theorem parseDigitsE_frame {b : List Byte} {n : Nat} {rest : List Byte}
    (h : parseDigitsE b = some (n, rest)) :
    ∃ c, c ≠ [] ∧ b = c ++ rest ∧
      ∀ r', parseDigitsE (c ++ r') = some (n, r') := by
  have hsplit := takeDigits_eq b
  have hdig := takeDigits_digits b
  simp only [parseDigitsE] at h
  split at h
  · exact absurd h (by simp)
  · split at h
    · next r2 heq =>
      injection h with h'
      injection h' with hn hrest
      refine ⟨(takeDigits b).1 ++ [101], by simp, ?_, ?_⟩
      · conv_lhs => rw [← hsplit]
        rw [heq, hrest]
        simp
      · intro r'
        have hfix : takeDigits ((takeDigits b).1 ++ 101 :: r') =
            ((takeDigits b).1, 101 :: r') :=
          takeDigits_append _ _ _ hdig (by rfl)
        have hne : ((takeDigits b).1.isEmpty) = false := by
          next hemp _ => simpa using hemp
        simp only [List.append_assoc, List.cons_append, List.nil_append]
        simp only [parseDigitsE, hfix, hne, Bool.false_eq_true, if_false, hn]
    · exact absurd h (by simp)

/-- Like `parseStrFrom_frame`, for a full integer item. -/
theorem parseIntAfterI_frame {b : List Byte} {i : Int} {rest : List Byte}
    (h : parseIntAfterI b = some (i, rest)) :
    ∃ c, c ≠ [] ∧ b = c ++ rest ∧
      ∀ r', parseIntAfterI (c ++ r') = some (i, r') := by
  cases b with
  | nil => simp [parseIntAfterI] at h
  | cons c0 r =>
    by_cases hc : c0 = 45
    · subst hc
      simp only [parseIntAfterI, if_pos rfl] at h
      cases hpe : parseDigitsE r with
      | none => rw [hpe] at h; exact absurd h (by simp)
      | some p =>
        rw [hpe] at h
        obtain ⟨m, rest0⟩ := p
        simp only [Option.map_some'] at h
        injection h with h'
        injection h' with hi hrest
        obtain ⟨c₁, hne, hb, hrerun⟩ := parseDigitsE_frame (hrest ▸ hpe)
        refine ⟨45 :: c₁, by simp, by rw [hb]; rfl, ?_⟩
        intro r'
        simp only [List.cons_append, parseIntAfterI, if_pos rfl, if_true,
          hrerun r', Option.map_some', hi]
    · simp only [parseIntAfterI, if_neg hc] at h
      cases hpe : parseDigitsE (c0 :: r) with
      | none => rw [hpe] at h; exact absurd h (by simp)
      | some p =>
        rw [hpe] at h
        obtain ⟨m, rest0⟩ := p
        simp only [Option.map_some'] at h
        injection h with h'
        injection h' with hi hrest
        obtain ⟨c₁, hne, hb, hrerun⟩ := parseDigitsE_frame (hrest ▸ hpe)
        obtain ⟨t, hc₁, hr⟩ := cons_eq_append hne hb
        refine ⟨c₁, hne, hb, ?_⟩
        intro r'
        rw [hc₁]
        simp only [List.cons_append, parseIntAfterI, if_neg hc]
        have := hrerun r'
        rw [hc₁] at this
        simp only [List.cons_append] at this
        simp only [this, Option.map_some', hi]

/-- Fuel monotonicity (single step) for the three mutual parse functions. -/
theorem parseMonoStep : ∀ n : Nat,
    (∀ b x, parseV n b = some x → parseV (n + 1) b = some x) ∧
    (∀ b x, parseItems n b = some x → parseItems (n + 1) b = some x) ∧
    (∀ b x, parsePairs n b = some x → parsePairs (n + 1) b = some x) := by
  intro n
  induction n with
  | zero =>
    refine ⟨?_, ?_, ?_⟩ <;> intro b x h <;>
      simp [parseV, parseItems, parsePairs] at h
  | succ n ih =>
    obtain ⟨ihV, ihI, ihP⟩ := ih
    refine ⟨?_, ?_, ?_⟩
    · intro b x h
      cases b with
      | nil => simp [parseV] at h
      | cons c r =>
        simp only [parseV] at h ⊢
        by_cases h1 : c = 105
        · simpa [h1] using h
        · by_cases h2 : c = 108
          · simp only [h1, h2, if_false, if_true, if_pos rfl] at h ⊢
            cases hI : parseItems n r with
            | none => rw [hI] at h; exact absurd h (by simp)
            | some p => rw [hI] at h; rw [ihI r p hI]; exact h
          · by_cases h3 : c = 100
            · simp only [h1, h2, h3, if_false, if_true, if_pos rfl] at h ⊢
              cases hP : parsePairs n r with
              | none => rw [hP] at h; exact absurd h (by simp)
              | some p => rw [hP] at h; rw [ihP r p hP]; exact h
            · simp only [h1, h2, h3, if_false] at h ⊢
              exact h
    · intro b x h
      cases b with
      | nil => simp [parseItems] at h
      | cons c r =>
        simp only [parseItems] at h ⊢
        by_cases h1 : c = 101
        · simpa [h1] using h
        · simp only [h1, if_false] at h ⊢
          cases hV : parseV n (c :: r) with
          | none => rw [hV] at h; exact absurd h (by simp)
          | some p =>
            rw [hV] at h
            rw [ihV _ p hV]
            simp only [Option.some_bind] at h ⊢
            cases hI : parseItems n p.2 with
            | none => rw [hI] at h; exact absurd h (by simp)
            | some q =>
              rw [hI] at h
              rw [ihI _ q hI]
              exact h
    · intro b x h
      cases b with
      | nil => simp [parsePairs] at h
      | cons c r =>
        simp only [parsePairs] at h ⊢
        by_cases h1 : c = 101
        · simpa [h1] using h
        · simp only [h1, if_false] at h ⊢
          cases hS : parseStrFrom (c :: r) with
          | none => rw [hS] at h; exact absurd h (by simp)
          | some p =>
            rw [hS] at h
            simp only [Option.some_bind] at h ⊢
            cases hV : parseV n p.2 with
            | none => rw [hV] at h; exact absurd h (by simp)
            | some q =>
              rw [hV] at h
              rw [ihV _ q hV]
              simp only [Option.some_bind] at h ⊢
              cases hP : parsePairs n q.2 with
              | none => rw [hP] at h; exact absurd h (by simp)
              | some w =>
                rw [hP] at h
                rw [ihP _ w hP]
                exact h

/-- Fuel monotonicity for `parseV`. -/
theorem parseV_mono {n m : Nat} (hnm : n ≤ m) {b : List Byte}
    {x : BencodeValue × List Byte} (h : parseV n b = some x) :
    parseV m b = some x := by
  induction m with
  | zero =>
    have : n = 0 := by omega
    subst this
    exact h
  | succ m ih =>
    rcases Nat.lt_or_ge n (m + 1) with hlt | hge
    · exact (parseMonoStep m).1 b x (ih (by omega))
    · have : n = m + 1 := by omega
      subst this
      exact h

/-- The consumed-region frame property, jointly for the three mutual parse
functions: a successful parse depends only on the bytes it consumed, so
re-running on the consumed bytes followed by any other suffix succeeds with
that suffix as the remainder. -/
theorem parseFrame : ∀ n : Nat,
    (∀ b v rest, parseV n b = some (v, rest) →
      ∃ c, c ≠ [] ∧ b = c ++ rest ∧
        ∀ r', parseV n (c ++ r') = some (v, r')) ∧
    (∀ b vs rest, parseItems n b = some (vs, rest) →
      ∃ c, c ≠ [] ∧ b = c ++ rest ∧
        ∀ r', parseItems n (c ++ r') = some (vs, r')) ∧
    (∀ b ps rest, parsePairs n b = some (ps, rest) →
      ∃ c, c ≠ [] ∧ b = c ++ rest ∧
        ∀ r', parsePairs n (c ++ r') = some (ps, r')) := by
  intro n
  induction n with
  | zero =>
    refine ⟨?_, ?_, ?_⟩ <;> intro b y rest h <;>
      simp [parseV, parseItems, parsePairs] at h
  | succ n ih =>
    obtain ⟨ihV, ihI, ihP⟩ := ih
    refine ⟨?_, ?_, ?_⟩
    · intro b v rest h
      cases b with
      | nil => simp [parseV] at h
      | cons c r =>
        simp only [parseV] at h
        by_cases h1 : c = 105
        · subst h1
          rw [if_pos rfl] at h
          cases hI : parseIntAfterI r with
          | none => rw [hI] at h; exact absurd h (by simp)
          | some p =>
            obtain ⟨i0, rest0⟩ := p
            rw [hI] at h
            simp only [Option.map_some', Option.some.injEq, Prod.mk.injEq] at h
            obtain ⟨hv, hrest⟩ := h
            obtain ⟨c₁, hne, hb, hrerun⟩ := parseIntAfterI_frame hI
            refine ⟨105 :: c₁, by simp, ?_, ?_⟩
            · rw [hb, ← hrest]; rfl
            · intro r'
              simp only [List.cons_append, parseV, if_pos rfl]
              rw [hrerun r']
              simp only [Option.map_some', hv]
              simp
        · by_cases h2 : c = 108
          · subst h2
            rw [if_neg h1, if_pos rfl] at h
            cases hI : parseItems n r with
            | none => rw [hI] at h; exact absurd h (by simp)
            | some p =>
              obtain ⟨vs0, rest0⟩ := p
              rw [hI] at h
              simp only [Option.map_some', Option.some.injEq, Prod.mk.injEq]
                at h
              obtain ⟨hv, hrest⟩ := h
              obtain ⟨c₁, hne, hb, hrerun⟩ := ihI _ _ _ hI
              refine ⟨108 :: c₁, by simp, ?_, ?_⟩
              · rw [hb, ← hrest]; rfl
              · intro r'
                simp only [List.cons_append, parseV, if_neg h1, if_pos rfl]
                rw [hrerun r']
                simp only [Option.map_some', hv]
                simp
          · by_cases h3 : c = 100
            · subst h3
              rw [if_neg h1, if_neg h2, if_pos rfl] at h
              cases hI : parsePairs n r with
              | none => rw [hI] at h; exact absurd h (by simp)
              | some p =>
                obtain ⟨ps0, rest0⟩ := p
                rw [hI] at h
                simp only [Option.map_some', Option.some.injEq,
                  Prod.mk.injEq] at h
                obtain ⟨hv, hrest⟩ := h
                obtain ⟨c₁, hne, hb, hrerun⟩ := ihP _ _ _ hI
                refine ⟨100 :: c₁, by simp, ?_, ?_⟩
                · rw [hb, ← hrest]; rfl
                · intro r'
                  simp only [List.cons_append, parseV, if_neg h1, if_neg h2,
                    if_pos rfl]
                  rw [hrerun r']
                  simp only [Option.map_some', hv]
                  simp
            · by_cases h4 : isDigit c
              · rw [if_neg h1, if_neg h2, if_neg h3, if_pos h4] at h
                cases hS : parseStrFrom (c :: r) with
                | none => rw [hS] at h; exact absurd h (by simp)
                | some p =>
                  obtain ⟨s0, rest0⟩ := p
                  rw [hS] at h
                  simp only [Option.map_some', Option.some.injEq,
                    Prod.mk.injEq] at h
                  obtain ⟨hv, hrest⟩ := h
                  obtain ⟨c₁, hne, hb, hrerun⟩ := parseStrFrom_frame hS
                  obtain ⟨t, hc₁, hr⟩ := cons_eq_append hne (hrest ▸ hb)
                  refine ⟨c₁, hne, hrest ▸ hb, ?_⟩
                  intro r'
                  rw [hc₁]
                  simp only [List.cons_append, parseV, if_neg h1, if_neg h2,
                    if_neg h3, if_pos h4]
                  have hru := hrerun r'
                  rw [hc₁] at hru
                  simp only [List.cons_append] at hru
                  rw [hru]
                  simp only [Option.map_some', hv]
              · rw [if_neg h1, if_neg h2, if_neg h3, if_neg (by simp [h4])]
                  at h
                exact absurd h (by simp)
    · intro b vs rest h
      cases b with
      | nil => simp [parseItems] at h
      | cons c r =>
        simp only [parseItems] at h
        by_cases h1 : c = 101
        · subst h1
          rw [if_pos rfl] at h
          simp only [Option.some.injEq, Prod.mk.injEq] at h
          obtain ⟨hvs, hrest⟩ := h
          refine ⟨[101], by simp, by rw [← hrest]; rfl, ?_⟩
          intro r'
          simp [parseItems, ← hvs]
        · rw [if_neg h1] at h
          cases hV : parseV n (c :: r) with
          | none => rw [hV] at h; exact absurd h (by simp)
          | some p =>
            obtain ⟨v0, rest1⟩ := p
            rw [hV] at h
            simp only [Option.some_bind] at h
            cases hI : parseItems n rest1 with
            | none => rw [hI] at h; exact absurd h (by simp)
            | some q =>
              obtain ⟨vs1, rest2⟩ := q
              rw [hI] at h
              simp only [Option.map_some', Option.some.injEq, Prod.mk.injEq]
                at h
              obtain ⟨hvs, hrest⟩ := h
              obtain ⟨c₁, hne₁, hb₁, hrerun₁⟩ := ihV _ _ _ hV
              obtain ⟨c₂, hne₂, hb₂, hrerun₂⟩ := ihI _ _ _ hI
              obtain ⟨t, hc₁, hr⟩ := cons_eq_append hne₁ hb₁
              refine ⟨c₁ ++ c₂, by simp [hc₁], ?_, ?_⟩
              · rw [hb₁, hb₂, ← hrest, List.append_assoc]
              · intro r'
                have e1 : (c₁ ++ c₂) ++ r' = c :: (t ++ (c₂ ++ r')) := by
                  rw [hc₁]
                  simp
                rw [e1]
                have hru₁ : parseV n (c :: (t ++ (c₂ ++ r'))) =
                    some (v0, c₂ ++ r') := by
                  have h' := hrerun₁ (c₂ ++ r')
                  rw [hc₁] at h'
                  simpa using h'
                simp only [parseItems, if_neg h1]
                rw [hru₁]
                simp only [Option.some_bind]
                rw [hrerun₂ r']
                simp only [Option.map_some', hvs]
    · intro b ps rest h
      cases b with
      | nil => simp [parsePairs] at h
      | cons c r =>
        simp only [parsePairs] at h
        by_cases h1 : c = 101
        · subst h1
          rw [if_pos rfl] at h
          simp only [Option.some.injEq, Prod.mk.injEq] at h
          obtain ⟨hps, hrest⟩ := h
          refine ⟨[101], by simp, by rw [← hrest]; rfl, ?_⟩
          intro r'
          simp [parsePairs, ← hps]
        · rw [if_neg h1] at h
          cases hS : parseStrFrom (c :: r) with
          | none => rw [hS] at h; exact absurd h (by simp)
          | some p =>
            obtain ⟨k0, rest1⟩ := p
            rw [hS] at h
            simp only [Option.some_bind] at h
            cases hV : parseV n rest1 with
            | none => rw [hV] at h; exact absurd h (by simp)
            | some q =>
              obtain ⟨v0, rest2⟩ := q
              rw [hV] at h
              simp only [Option.some_bind] at h
              cases hP : parsePairs n rest2 with
              | none => rw [hP] at h; exact absurd h (by simp)
              | some w =>
                obtain ⟨ps1, rest3⟩ := w
                rw [hP] at h
                simp only [Option.map_some', Option.some.injEq,
                  Prod.mk.injEq] at h
                obtain ⟨hps, hrest⟩ := h
                obtain ⟨c₁, hne₁, hb₁, hrerun₁⟩ := parseStrFrom_frame hS
                obtain ⟨c₂, hne₂, hb₂, hrerun₂⟩ := ihV _ _ _ hV
                obtain ⟨c₃, hne₃, hb₃, hrerun₃⟩ := ihP _ _ _ hP
                obtain ⟨t, hc₁, hr⟩ := cons_eq_append hne₁ hb₁
                refine ⟨c₁ ++ c₂ ++ c₃, by simp [hc₁], ?_, ?_⟩
                · rw [hb₁, hb₂, hb₃, ← hrest]
                  simp [List.append_assoc]
                · intro r'
                  have e1 : c₁ ++ c₂ ++ c₃ ++ r' =
                      c :: (t ++ (c₂ ++ (c₃ ++ r'))) := by
                    rw [hc₁]
                    simp
                  rw [e1]
                  have hru₁ : parseStrFrom (c :: (t ++ (c₂ ++ (c₃ ++ r')))) =
                      some (k0, c₂ ++ (c₃ ++ r')) := by
                    have h' := hrerun₁ (c₂ ++ (c₃ ++ r'))
                    rw [hc₁] at h'
                    simpa using h'
                  simp only [parsePairs, if_neg h1]
                  rw [hru₁]
                  simp only [Option.some_bind]
                  rw [hrerun₂ (c₃ ++ r')]
                  simp only [Option.some_bind]
                  rw [hrerun₃ r']
                  simp only [Option.map_some', hps]

/-- Appending extra bytes to an input that parses completely yields the same
value with exactly the extra bytes as the unconsumed remainder. -/
theorem parse_bencode_frame {b : List Byte} {v : BencodeValue}
    (h : parse_bencode b = some (v, [])) (extra : List Byte) :
    parse_bencode (b ++ extra) = some (v, extra) := by
  unfold parse_bencode at h ⊢
  obtain ⟨c, hne, hb, hrerun⟩ := (parseFrame (2 * b.length + 2)).1 b v [] h
  rw [List.append_nil] at hb
  subst hb
  exact parseV_mono (by simp only [List.length_append]; omega) (hrerun extra)

/-- Decoding failure channel of the metainfo module (`DecodingError =
String` in the source), extended with an explicit `panicked` constructor: the
source reaches `expect` (a process abort, not an error return) on invalid
UTF-8 inside `announce-list` tiers and file `path` lists, and the embedding
makes that terminal outcome observable. -/
inductive DErr where
  | err : String → DErr
  | panicked : String → DErr
deriving DecidableEq

/-- `BFile` of `src/metainfo.rs`. -/
structure BFile where
  length : Int
  path : List (List Byte)
deriving DecidableEq

/-- `BInfo` of `src/metainfo.rs`.  The source field `private` is a reserved
word in Lean and is rendered `priv`. -/
structure BInfo where
  files : Option (List BFile)
  length : Option Int
  name : List Byte
  piece_size : Int
  pieces : List Byte
  priv : Option Bool
  source : Option (List Byte)
deriving DecidableEq

/-- `BMetainfo` of `src/metainfo.rs`. -/
structure BMetainfo where
  announce : List Byte
  announce_list : Option (List (List (List Byte)))
  comment : Option (List Byte)
  created_by : Option (List Byte)
  created_on : Option Int
  encoding : Option (List Byte)
  info : BInfo
deriving DecidableEq

/-- `get_utf8_value` of `src/util.rs`: required UTF-8 string field. -/
def get_utf8_value (dict : List (List Byte × BencodeValue))
    (key : List Byte) : Except DErr (List Byte) :=
  match bfind dict key with
  | some (.byteString s) =>
    if validUtf8 s then .ok s
    else .error (.err ("Field \x27" ++ strOfBytes key ++
      "\x27 must be a valid UTF-8 string"))
  | none => .error (.err ("Missing field \x27" ++ strOfBytes key ++ "\x27"))
  | some _ =>
    .error (.err ("Field \x27" ++ strOfBytes key ++
      "\x27 must be a byte string"))

/-- `get_optional_utf8_value` of `src/util.rs`: `none` for an absent or
non-byte-string key, an error only for a present byte string that is not
valid UTF-8. -/
def get_optional_utf8_value (dict : List (List Byte × BencodeValue))
    (key : List Byte) : Except DErr (Option (List Byte)) :=
  match bfind dict key with
  | some (.byteString s) =>
    if validUtf8 s then .ok (some s)
    else .error (.err ("Field \x27" ++ strOfBytes key ++
      "\x27 must be a valid UTF-8 string"))
  | _ => .ok none

/-- The `path` loop of `BFile::from_bencode_dict`: byte-string items only,
with a panic (`expect`) on invalid UTF-8. -/
def decodePathItems : List BencodeValue → Except DErr (List (List Byte))
  | [] => .ok []
  | .byteString s :: r =>
    if validUtf8 s then (decodePathItems r).map (s :: ·)
    else .error (.panicked "Invalid UTF-8 in path")
  | _ :: _ => .error (.err "field \x27path\x27 must be a list of strings")

/-- `BFile::from_bencode_dict` of `src/metainfo.rs`. -/
def BFile.from_bencode_dict (dict : List (List Byte × BencodeValue)) :
    Except DErr BFile := do
  let length ← match bfind dict (bs "length") with
    | some (.integer v) => Except.ok v
    | none => .error (.err "missing field \x27length\x27")
    | some _ => .error (.err "field \x27length\x27 must be an integer")
  let path ← match bfind dict (bs "path") with
    | some (.list l) => decodePathItems l
    | none => .error (.err "missing field \x27path\x27")
    | some _ => .error (.err "field \x27path\x27 must be a list")
  .ok { length := length, path := path }

/-- The `files` loop of `BInfo::from_bencode_dict`: dictionary items only,
each decoded as a `BFile`. -/
def decodeFileItems : List BencodeValue → Except DErr (List BFile)
  | [] => .ok []
  | .dictionary fd :: r => do
    let f ← BFile.from_bencode_dict fd
    let fs ← decodeFileItems r
    .ok (f :: fs)
  | _ :: _ => .error (.err "field \x27files\x27 must be list of dictionaries")

/-- `BInfo::from_bencode_dict` of `src/metainfo.rs`, ending with the
`length`/`files` mutual-exclusion check. -/
def BInfo.from_bencode_dict (dict : List (List Byte × BencodeValue)) :
    Except DErr BInfo := do
  let files ← match bfind dict (bs "files") with
    | some (.list l) => (decodeFileItems l).map some
    | none => Except.ok none
    | some _ => .error (.err "field \x27files\x27 must be a list")
  let length ← match bfind dict (bs "length") with
    | some (.integer v) => Except.ok (some v)
    | none => .ok none
    | some _ => .error (.err "field \x27length\x27 must be an integer")
  let name ← get_utf8_value dict (bs "name")
  let piece_size ← match bfind dict (bs "piece length") with
    | some (.integer v) => Except.ok v
    | none => .error (.err "missing field \x27piece length\x27")
    | some _ => .error (.err "field \x27piece length\x27 must be an integer")
  let pieces ← match bfind dict (bs "pieces") with
    | some (.byteString v) => Except.ok v
    | none => .error (.err "missing field \x27pieces\x27")
    | some _ => .error (.err "field \x27pieces\x27 must be a byte string")
  let priv ← match bfind dict (bs "private") with
    | some (.integer v) => Except.ok (some (v != 0))
    | none => .ok none
    | some _ => .error (.err "field \x27private\x27 must be an integer")
  let source ← get_optional_utf8_value dict (bs "source")
  if length.isSome = files.isSome then
    .error (.err "Metainfo files must contain the field \x27length\x27 or \x27files\x27 (not both or none)")
  else
    .ok { files := files, length := length, name := name,
          piece_size := piece_size, pieces := pieces, priv := priv,
          source := source }

/-- The inner (tracker) loop of
`BMetainfo::from_bencode_value_anounce_list`: byte-string items only, with a
panic (`expect`) on invalid UTF-8. -/
def decodeTierTrackers : List BencodeValue → Except DErr (List (List Byte))
  | [] => .ok []
  | .byteString s :: r =>
    if validUtf8 s then (decodeTierTrackers r).map (s :: ·)
    else .error (.panicked "Invalid UTF-8 in announce-list")
  | _ :: _ => .error (.err "Invalid type in announce-list")

/-- The outer (tier) loop of `BMetainfo::from_bencode_value_anounce_list`:
list items only. -/
def decodeTiers : List BencodeValue → Except DErr (List (List (List Byte)))
  | [] => .ok []
  | .list tr :: rest => do
    let t ← decodeTierTrackers tr
    let ts ← decodeTiers rest
    .ok (t :: ts)
  | _ :: _ => .error (.err "Invalid item in announce-list")

/-- `BMetainfo::from_bencode_value_anounce_list` of `src/metainfo.rs` (the
source spells it `anounce`). -/
def BMetainfo.from_bencode_value_anounce_list
    (dict : List (List Byte × BencodeValue)) :
    Except DErr (Option (List (List (List Byte)))) :=
  match bfind dict (bs "announce-list") with
  | some (.list l) => (decodeTiers l).map some
  | none => .ok none
  | some _ => .error (.err "announce-list must be a list")

/-- The `creation date` step of `BMetainfo::from_bencode_value`. -/
def decodeCreationDate (dict : List (List Byte × BencodeValue)) :
    Except DErr (Option Int) :=
  match bfind dict (bs "creation date") with
  | some (.integer v) => Except.ok (some v)
  | none => .ok none
  | some _ => .error (.err "field \x27creation date\x27 must be an integer")

/-- The `encoding` step of `BMetainfo::from_bencode_value`: a present,
valid-UTF-8 value must compare case-insensitively equal to `utf-8`; an
absent, wrong-typed or invalid-UTF-8 value yields `none` (the source's `_`
match arm discards the helper's error). -/
def decodeEncodingField (dict : List (List Byte × BencodeValue)) :
    Except DErr (Option (List Byte)) :=
  match get_optional_utf8_value dict (bs "encoding") with
  | .ok (some e) =>
    if asciiLower e ≠ bs "utf-8" then
      .error (.err ("only UTF-8 encoding is supported; encountered " ++
        "encoding \x27" ++ strOfBytes e ++ "\x27 instead"))
    else Except.ok (some e)
  | _ => .ok none

/-- The `info` step of `BMetainfo::from_bencode_value`. -/
def decodeInfoField (dict : List (List Byte × BencodeValue)) :
    Except DErr BInfo :=
  match bfind dict (bs "info") with
  | some (.dictionary info_dict) => BInfo.from_bencode_dict info_dict
  | none => .error (.err "missing field \x27info\x27")
  | some _ => .error (.err "field \x27info\x27 must be a dictionary")

/-- `BMetainfo::from_bencode_value` of `src/metainfo.rs`. -/
def BMetainfo.from_bencode_value (value : BencodeValue) :
    Except DErr BMetainfo :=
  match value with
  | .dictionary dict => do
    let announce ← get_utf8_value dict (bs "announce")
    let announce_list ← BMetainfo.from_bencode_value_anounce_list dict
    let comment ← get_optional_utf8_value dict (bs "comment")
    let created_by ← get_optional_utf8_value dict (bs "created by")
    let created_on ← decodeCreationDate dict
    let encoding ← decodeEncodingField dict
    let info ← decodeInfoField dict
    .ok { announce := announce, announce_list := announce_list,
          comment := comment, created_by := created_by,
          created_on := created_on, encoding := encoding, info := info }
  | _ => .error (.err "Metainfo must be a dictionary")

/-- `BMetainfo::from_bytes` of `src/metainfo.rs`: parse one bencode value,
reject trailing bytes, then decode. -/
def BMetainfo.from_bytes (bytes : List Byte) : Except DErr BMetainfo :=
  match parse_bencode bytes with
  | none => .error (.err "Failed to parse bencode")
  | some (value, remaining) =>
    if remaining.isEmpty then BMetainfo.from_bencode_value value
    else .error (.err "Erroneous data at the end of the metainfo file")

/-- `BInfo::total_piece_count`: `pieces.len() as isize / 20`. -/
def BInfo.total_piece_count (info : BInfo) : Int :=
  (info.pieces.length : Int) / 20

/-- `BInfo::total_piece_size_bytes`. -/
def BInfo.total_piece_size_bytes (info : BInfo) : Int :=
  info.piece_size * info.total_piece_count

/-- `BInfo::metainfo_total_size_bytes`. -/
def BInfo.metainfo_total_size_bytes (info : BInfo) : Int :=
  match info.files with
  | some files => (files.map BFile.length).sum
  | none =>
    match info.length with
    | some length => length
    | none => 0

/-- `BInfo::compute_hash` of `src/metainfo.rs`: build the canonical info
dictionary and SHA-1 its bencode encoding.  The `BTreeMap` iterates its keys
in sorted byte order; the insertion order of the source (`files`/`length`,
`name`, `piece length`, `pieces`, `private`, `source`) is already that
order, so the pair list below is the map's iteration order. -/
def BInfo.compute_hash (info : BInfo) : Except String (List Byte) :=
  let head : List (List Byte × BencodeValue) :=
    match info.files with
    | some files =>
      [(bs "files", .list (files.map fun f =>
        .dictionary [(bs "length", .integer f.length),
                     (bs "path", .list (f.path.map .byteString))]))]
    | none =>
      match info.length with
      | some length => [(bs "length", .integer length)]
      | none => []
  let info_dict := head ++
    [(bs "name", .byteString info.name),
     (bs "piece length", .integer info.piece_size),
     (bs "pieces", .byteString info.pieces)] ++
    (match info.priv with
     | some p => [(bs "private", .integer (if p then 1 else 0))]
     | none => []) ++
    (match info.source with
     | some s => [(bs "source", .byteString s)]
     | none => [])
  .ok (sha1 (encode_to_bytes (.dictionary info_dict)))

/-- `std::net::IpAddr`: a v4 address is its 4 bytes, a v6 address its 16
bytes. -/
inductive IpAddr where
  | v4 : List Byte → IpAddr
  | v6 : List Byte → IpAddr
deriving DecidableEq

/-- `BPeer` of `src/tracker.rs`. -/
structure BPeer where
  ip : IpAddr
  peer_id : List Byte
  port : Nat
deriving DecidableEq

/-- The bendy decoding-error kinds reached by the translated tracker code.
`unexpectedField` keeps the raw key bytes (the source renders them with
`String::from_utf8_lossy` into the error message). -/
inductive TErr where
  | malformedContent : String → TErr
  | unexpectedField : List Byte → TErr
  | missingField : String → TErr
  | typeError : String → TErr
deriving DecidableEq

/-- Split a byte list on a separator byte (like `str::split`). -/
def splitOnByte (sep : Byte) : List Byte → List (List Byte)
  | [] => [[]]
  | c :: r =>
    if c = sep then [] :: splitOnByte sep r
    else
      match splitOnByte sep r with
      | [] => [[c]]
      | g :: gs => (c :: g) :: gs

/-- Modelled from the spec: one dotted-quad octet of the standard-library
IPv4 text parser (1-3 digits, no leading zero, value at most 255). -/
def parseDecOctet (p : List Byte) : Option Nat :=
  if !p.isEmpty && p.all isDigit && p.length ≤ 3 &&
      (p.length == 1 || p.getD 0 0 != 48) then
    let v := digitsToNat p
    if v ≤ 255 then some v else none
  else none

/-- Hexadecimal digit value. -/
def hexDigitVal (c : Byte) : Option Nat :=
  if 48 ≤ c ∧ c ≤ 57 then some (c - 48)
  else if 97 ≤ c ∧ c ≤ 102 then some (c - 87)
  else if 65 ≤ c ∧ c ≤ 70 then some (c - 55)
  else none

/-- One 16-bit group of the IPv6 text form (1-4 hex digits). -/
def parseHexGroup (p : List Byte) : Option Nat :=
  if p.isEmpty || p.length > 4 then none
  else (p.mapM hexDigitVal).map fun ds => ds.foldl (fun a d => 16 * a + d) 0

/-- Modelled from the spec: the standard-library IPv4 dotted-quad text
parser, returning the 4 address bytes. -/
def ipv4Parse (s : List Byte) : Option (List Byte) :=
  match (splitOnByte 46 s).mapM parseDecOctet with
  | some parts => if parts.length = 4 then some parts else none
  | none => none

/-- Modelled from the spec: the standard-library IPv6 text parser (colon
groups with at most one `::` abbreviation; the embedded-IPv4 suffix form is
not modelled, no translated call site depends on it), returning the 16
address bytes. -/
def ipv6Parse (s : List Byte) : Option (List Byte) :=
  let gs := splitOnByte 58 s
  let gs := match gs with
    | [] :: [] :: rest => [] :: rest
    | g => g
  let gs := match gs.reverse with
    | [] :: [] :: rest => ([] :: rest).reverse
    | _ => gs
  if gs.count [] = 1 then
    let left : List (List Byte) := gs.takeWhile fun g => !g.isEmpty
    let right : List (List Byte) := gs.drop (left.length + 1)
    if left.length + right.length ≤ 7 then
      match left.mapM parseHexGroup, right.mapM parseHexGroup with
      | some lv, some rv =>
        let groups := lv ++
          List.replicate (8 - lv.length - rv.length) 0 ++ rv
        some (groups.foldr (fun g acc => g / 256 :: g % 256 :: acc) [])
      | _, _ => none
    else none
  else if gs.count [] = 0 then
    if gs.length = 8 then
      (gs.mapM parseHexGroup).map fun gv =>
        gv.foldr (fun g acc => g / 256 :: g % 256 :: acc) []
    else none
  else none

/-- Modelled from the spec: `IpAddr::from_str` — IPv4 form first, then
IPv6. -/
def ipParse (s : List Byte) : Option IpAddr :=
  match ipv4Parse s with
  | some b => some (.v4 b)
  | none => (ipv6Parse s).map .v6

/-- bendy `String::decode_bencode_object`: byte string, validated UTF-8. -/
def decodeStringObj (v : BencodeValue) : Except TErr (List Byte) :=
  match v with
  | .byteString s =>
    if validUtf8 s then .ok s else .error (.typeError "invalid utf-8 string")
  | _ => .error (.typeError "string")

/-- bendy `AsString::decode_bencode_object`: raw bytes. -/
def decodeBytesObj (v : BencodeValue) : Except TErr (List Byte) :=
  match v with
  | .byteString s => .ok s
  | _ => .error (.typeError "byte string")

/-- bendy `u64::decode_bencode_object`. -/
def decodeU64Obj (v : BencodeValue) : Except TErr Nat :=
  match v with
  | .integer i =>
    if 0 ≤ i ∧ i < 18446744073709551616 then .ok i.toNat
    else .error (.typeError "u64")
  | _ => .error (.typeError "u64")

/-- bendy `u16::decode_bencode_object`. -/
def decodeU16Obj (v : BencodeValue) : Except TErr Nat :=
  match v with
  | .integer i =>
    if 0 ≤ i ∧ i < 65536 then .ok i.toNat
    else .error (.typeError "u16")
  | _ => .error (.typeError "u16")

/-- `parse_compact_ipv4_peer_list` of `src/tracker.rs`: 6-byte records,
4 address bytes then a big-endian 16-bit port; empty peer id. -/
def parse_compact_ipv4_peer_list (bytes : List Byte) :
    Except TErr (List BPeer) :=
  if bytes.length % 6 ≠ 0 then
    .error (.malformedContent
      "incomplete compact ipv4 peers list (length is not divisible by 6)")
  else
    .ok ((chunksOf 6 bytes).map fun i =>
      { ip := .v4 (i.take 4), peer_id := [],
        port := 256 * i.getD 4 0 + i.getD 5 0 })

/-- `parse_compact_ipv6_peer_list` of `src/tracker.rs`: 18-byte records,
16 address bytes then a big-endian 16-bit port; empty peer id.  (The source
error message says `ipv4`; kept verbatim.) -/
def parse_compact_ipv6_peer_list (bytes : List Byte) :
    Except TErr (List BPeer) :=
  if bytes.length % 18 ≠ 0 then
    .error (.malformedContent
      "incomplete compact ipv4 peers list (length is not divisible by 18)")
  else
    .ok ((chunksOf 18 bytes).map fun i =>
      { ip := .v6 (i.take 16), peer_id := [],
        port := 256 * i.getD 16 0 + i.getD 17 0 })

/-- Accumulator of the `while let Some(keyval) = dict.next_pair()` loop in
`BPeer::decode_bencode_object`. -/
structure PeerAcc where
  ip : Option IpAddr
  peer_id : Option (List Byte)
  port : Option Nat
deriving DecidableEq

/-- The `ip` branch of the peer pair loop: a UTF-8 string, parsed as an IP
address of either family. -/
def decodeIpValue (v : BencodeValue) : Except TErr IpAddr := do
  let s ← decodeStringObj v
  match ipParse s with
  | some i => Except.ok i
  | none => .error (.malformedContent "invalid ip address")

/-- The pair loop of `BPeer::decode_bencode_object`, over the dictionary
pairs in source order. -/
def BPeer.stepPairs : List (List Byte × BencodeValue) → PeerAcc →
    Except TErr PeerAcc
  | [], st => .ok st
  | (k, v) :: rest, st =>
    if k = bs "ip" then do
      let ipv ← decodeIpValue v
      BPeer.stepPairs rest { st with ip := some ipv }
    else if k = bs "peer id" then do
      let s ← decodeStringObj v
      BPeer.stepPairs rest { st with peer_id := some s }
    else if k = bs "port" then do
      let p ← decodeU16Obj v
      BPeer.stepPairs rest { st with port := some p }
    else .error (.unexpectedField k)

/-- `BPeer::decode_bencode_object` of `src/tracker.rs`. -/
def BPeer.decode_bencode_object (object : BencodeValue) :
    Except TErr BPeer :=
  match object with
  | .dictionary pairs => do
    let st ← BPeer.stepPairs pairs ⟨none, none, none⟩
    let ip ← match st.ip with
      | some i => Except.ok i
      | none => .error (.missingField "ip")
    let peer_id ← match st.peer_id with
      | some p => Except.ok p
      | none => .error (.missingField "peer_id")
    let port ← match st.port with
      | some p => Except.ok p
      | none => .error (.missingField "port")
    .ok { ip := ip, peer_id := peer_id, port := port }
  | _ => .error (.typeError "dictionary")

/-- bendy `Vec::<BPeer>::decode_bencode_object` over the elements of a
bencode list, in order. -/
def decodePeerItems : List BencodeValue → Except TErr (List BPeer)
  | [] => .ok []
  | v :: r => do
    let p ← BPeer.decode_bencode_object v
    let ps ← decodePeerItems r
    .ok (p :: ps)

/-- `BTrackerResponse` of `src/tracker.rs`. -/
structure BTrackerResponse where
  peers : List BPeer
  interval : Nat
  complete : Option Nat
  incomplete : Option Nat
deriving DecidableEq

/-- Accumulator of the pair loop in
`BTrackerResponse::decode_bencode_object`. -/
structure TrackerAcc where
  peers : Option (List BPeer)
  peers6 : Option (List BPeer)
  interval : Option Nat
  complete : Option Nat
  incomplete : Option Nat
deriving DecidableEq

/-- The `peers` branch of the tracker pair loop: an explicit list of peer
dictionaries, or a compact IPv4 byte string; any other shape is the
malformed-content error of the source. -/
def decodePeersValue (v : BencodeValue) : Except TErr (List BPeer) :=
  match v with
  | .list items => decodePeerItems items
  | .byteString s => parse_compact_ipv4_peer_list s
  | _ =>
    .error (.malformedContent
      "peers key must be either a dictionary or a list")

/-- The pair loop of `BTrackerResponse::decode_bencode_object`, over the
dictionary pairs in source order. -/
def BTrackerResponse.stepPairs : List (List Byte × BencodeValue) →
    TrackerAcc → Except TErr TrackerAcc
  | [], st => .ok st
  | (k, v) :: rest, st =>
    if k = bs "peers" then do
      let ps ← decodePeersValue v
      BTrackerResponse.stepPairs rest { st with peers := some ps }
    else if k = bs "peers6" then do
      let s ← decodeBytesObj v
      let ps ← parse_compact_ipv6_peer_list s
      BTrackerResponse.stepPairs rest { st with peers6 := some ps }
    else if k = bs "interval" then do
      let i ← decodeU64Obj v
      BTrackerResponse.stepPairs rest { st with interval := some i }
    else if k = bs "complete" then do
      let i ← decodeU64Obj v
      BTrackerResponse.stepPairs rest { st with complete := some i }
    else if k = bs "incomplete" then do
      let i ← decodeU64Obj v
      BTrackerResponse.stepPairs rest { st with incomplete := some i }
    else .error (.unexpectedField k)

/-- `peers.ok_or_else(missing_field)` of the tracker decoder. -/
def requirePeers (o : Option (List BPeer)) : Except TErr (List BPeer) :=
  match o with
  | some p => .ok p
  | none => .error (.missingField "peers")

/-- `interval.ok_or_else(missing_field)` of the tracker decoder. -/
def requireInterval (o : Option Nat) : Except TErr Nat :=
  match o with
  | some i => .ok i
  | none => .error (.missingField "interval")

/-- The final merge of the tracker decoder: append the IPv6 peers, when
present, after the IPv4/explicit peers. -/
def mergePeers6 (peers : List BPeer) (o : Option (List BPeer)) :
    List BPeer :=
  match o with
  | some p6 => peers ++ p6
  | none => peers

theorem mergePeers6_eq_getD (peers : List BPeer) (o : Option (List BPeer)) :
    mergePeers6 peers o = peers ++ o.getD [] := by
  cases o <;> simp [mergePeers6]

/-- `BTrackerResponse::decode_bencode_object` of `src/tracker.rs`: run the
pair loop, require `peers` and `interval`, then append the IPv6 peers after
the IPv4/explicit peers. -/
def BTrackerResponse.decode_bencode_object (object : BencodeValue) :
    Except TErr BTrackerResponse :=
  match object with
  | .dictionary pairs => do
    let st ← BTrackerResponse.stepPairs pairs ⟨none, none, none, none, none⟩
    let peers ← requirePeers st.peers
    let interval ← requireInterval st.interval
    let peers := mergePeers6 peers st.peers6
    .ok { peers := peers, interval := interval, complete := st.complete,
          incomplete := st.incomplete }
  | _ => .error (.typeError "dictionary")

/-- Rendering of a bendy error into the `String` error type of
`BTrackerResponse::from_bytes` (`.map_err(|x| x.to_string())`; display
format abstracted). -/
def TErr.message : TErr → String
  | .malformedContent m => "malformed content: " ++ m
  | .unexpectedField k => "unexpected field: " ++ strOfBytes k
  | .missingField m => "missing field: " ++ m
  | .typeError m => "unexpected type: " ++ m

/-- Outcome of one `Decoder::next_object` call of the external streaming
decoder. -/
inductive NextObject where
  | eof : NextObject
  | obj : NextObject
  | err : NextObject
deriving DecidableEq

/-- Modelled from the source's use of the external streaming decoder
(bendy `Decoder::next_object`, the trailing-data check of
`BTrackerResponse::from_bytes`): at end of input it returns `Ok(None)`
(`eof`); it returns `Ok(Some(_))` (`obj`) when the input begins with a
readable token — an `l` or `d` opening byte (the decoder is lazy and does
not validate the container contents), a complete `i…e` integer token, or a
complete length-prefixed byte-string token — and `Err` (`err`) otherwise. -/
def next_object_outcome (rem : List Byte) : NextObject :=
  match rem with
  | [] => .eof
  | c :: r =>
    if c = 105 then
      match parseIntAfterI r with
      | some _ => .obj
      | none => .err
    else if c = 108 then .obj
    else if c = 100 then .obj
    else if isDigit c then
      match parseStrFrom (c :: r) with
      | some _ => .obj
      | none => .err
    else .err

theorem next_object_outcome_ne_eof {rem : List Byte} (h : rem ≠ []) :
    next_object_outcome rem ≠ NextObject.eof := by
  cases rem with
  | nil => exact absurd rfl h
  | cons c r =>
    simp only [next_object_outcome]
    by_cases h1 : c = 105
    · rw [if_pos h1]
      cases parseIntAfterI r <;> simp
    · rw [if_neg h1]
      by_cases h2 : c = 108
      · rw [if_pos h2]
        simp
      · rw [if_neg h2]
        by_cases h3 : c = 100
        · rw [if_pos h3]
          simp
        · rw [if_neg h3]
          by_cases h4 : isDigit c
          · rw [if_pos h4]
            cases parseStrFrom (c :: r) <;> simp
          · rw [if_neg (by simp [h4])]
            simp

/-- `BTrackerResponse::from_bytes` of `src/tracker.rs`: read one bencode
object (empty input is reported as an empty response), decode it, then run
the trailing-data check — a second `next_object` whose `Err` outcome is
propagated by `?` (its bendy display string abstracted to the fixed message
below), whose `Some` outcome is the trailing-data error, and whose `None`
outcome returns the decoded response. -/
def BTrackerResponse.from_bytes (bytes : List Byte) :
    Except String BTrackerResponse :=
  match parse_bencode bytes with
  | none =>
    if bytes.isEmpty then .error "Tracker sent empty response."
    else .error "Failed to parse tracker response"
  | some (obj, remaining) =>
    let tracker_response :=
      (BTrackerResponse.decode_bencode_object obj).mapError TErr.message
    match next_object_outcome remaining with
    | .err => .error "Failed to parse bencode object"
    | .obj => .error "Erroneous data at the end of the tracker response."
    | .eof => tracker_response

theorem exceptOkBind {ε α β : Type} (a : α) (f : α → Except ε β) :
    (Except.ok a >>= f) = f a := rfl

theorem exceptErrBind {ε α β : Type} (e : ε) (f : α → Except ε β) :
    ((Except.error e : Except ε α) >>= f) = .error e := rfl

theorem bfind_cons_ne {k' k : List Byte} (h : k' ≠ k) (v : BencodeValue)
    (d : List (List Byte × BencodeValue)) :
    bfind ((k', v) :: d) k = bfind d k := by
  simp [bfind, h]

theorem get_utf8_value_cons_ne {k' k : List Byte} (h : k' ≠ k)
    (v : BencodeValue) (d : List (List Byte × BencodeValue)) :
    get_utf8_value ((k', v) :: d) k = get_utf8_value d k := by
  simp only [get_utf8_value, bfind_cons_ne h]

theorem get_optional_utf8_value_cons_ne {k' k : List Byte} (h : k' ≠ k)
    (v : BencodeValue) (d : List (List Byte × BencodeValue)) :
    get_optional_utf8_value ((k', v) :: d) k = get_optional_utf8_value d k
    := by
  simp only [get_optional_utf8_value, bfind_cons_ne h]

theorem anounce_list_cons_ne {k' : List Byte} (h : k' ≠ bs "announce-list")
    (v : BencodeValue) (d : List (List Byte × BencodeValue)) :
    BMetainfo.from_bencode_value_anounce_list ((k', v) :: d) =
      BMetainfo.from_bencode_value_anounce_list d := by
  simp only [BMetainfo.from_bencode_value_anounce_list, bfind_cons_ne h]

theorem decodeCreationDate_cons_ne {k' : List Byte}
    (h : k' ≠ bs "creation date") (v : BencodeValue)
    (d : List (List Byte × BencodeValue)) :
    decodeCreationDate ((k', v) :: d) = decodeCreationDate d := by
  simp only [decodeCreationDate, bfind_cons_ne h]

theorem decodeEncodingField_cons_ne {k' : List Byte}
    (h : k' ≠ bs "encoding") (v : BencodeValue)
    (d : List (List Byte × BencodeValue)) :
    decodeEncodingField ((k', v) :: d) = decodeEncodingField d := by
  simp only [decodeEncodingField, get_optional_utf8_value_cons_ne h]

theorem decodeInfoField_cons_ne {k' : List Byte}
    (h : k' ≠ bs "info") (v : BencodeValue)
    (d : List (List Byte × BencodeValue)) :
    decodeInfoField ((k', v) :: d) = decodeInfoField d := by
  simp only [decodeInfoField, bfind_cons_ne h]

/-- The keys handled without error by the tracker pair loop. -/
def trackerKeys : List (List Byte) :=
  [bs "peers", bs "peers6", bs "interval", bs "complete", bs "incomplete"]

/-- The keys handled without error by the peer pair loop. -/
def peerKeys : List (List Byte) := [bs "ip", bs "peer id", bs "port"]

/-- Running the tracker pair loop over a concatenation: when the first part
succeeds, the loop continues on the second from the reached state. -/
theorem trackerStepPairs_append_ok
    {xs : List (List Byte × BencodeValue)} {st st' : TrackerAcc}
    (h : BTrackerResponse.stepPairs xs st = .ok st')
    (ys : List (List Byte × BencodeValue)) :
    BTrackerResponse.stepPairs (xs ++ ys) st =
      BTrackerResponse.stepPairs ys st' := by
  induction xs generalizing st with
  | nil =>
    simp only [BTrackerResponse.stepPairs, Except.ok.injEq] at h
    rw [List.nil_append, h]
  | cons p xs ih =>
    obtain ⟨k, v⟩ := p
    simp only [BTrackerResponse.stepPairs, List.cons_append] at h ⊢
    by_cases h1 : k = bs "peers"
    · rw [if_pos h1] at h ⊢
      cases hd : decodePeersValue v with
      | error e => rw [hd] at h; simp [exceptErrBind] at h
      | ok ps =>
        rw [hd] at h
        rw [exceptOkBind] at h ⊢
        exact ih h
    · rw [if_neg h1] at h ⊢
      by_cases h2 : k = bs "peers6"
      · rw [if_pos h2] at h ⊢
        cases hd : decodeBytesObj v with
        | error e => rw [hd] at h; simp [exceptErrBind] at h
        | ok s =>
          rw [hd] at h
          rw [exceptOkBind] at h ⊢
          cases hp : parse_compact_ipv6_peer_list s with
          | error e => rw [hp] at h; simp [exceptErrBind] at h
          | ok ps =>
            rw [hp] at h
            rw [exceptOkBind] at h ⊢
            exact ih h
      · rw [if_neg h2] at h ⊢
        by_cases h3 : k = bs "interval"
        · rw [if_pos h3] at h ⊢
          cases hd : decodeU64Obj v with
          | error e => rw [hd] at h; simp [exceptErrBind] at h
          | ok i =>
            rw [hd] at h
            rw [exceptOkBind] at h ⊢
            exact ih h
        · rw [if_neg h3] at h ⊢
          by_cases h4 : k = bs "complete"
          · rw [if_pos h4] at h ⊢
            cases hd : decodeU64Obj v with
            | error e => rw [hd] at h; simp [exceptErrBind] at h
            | ok i =>
              rw [hd] at h
              rw [exceptOkBind] at h ⊢
              exact ih h
          · rw [if_neg h4] at h ⊢
            by_cases h5 : k = bs "incomplete"
            · rw [if_pos h5] at h ⊢
              cases hd : decodeU64Obj v with
              | error e => rw [hd] at h; simp [exceptErrBind] at h
              | ok i =>
                rw [hd] at h
                rw [exceptOkBind] at h ⊢
                exact ih h
            · rw [if_neg h5] at h
              simp at h

/-- A state reached by the tracker pair loop only ever saw known keys. -/
theorem trackerStepPairs_ok_keys
    {xs : List (List Byte × BencodeValue)} {st st' : TrackerAcc}
    (h : BTrackerResponse.stepPairs xs st = .ok st') :
    ∀ p ∈ xs, p.1 ∈ trackerKeys := by
  induction xs generalizing st with
  | nil => simp
  | cons p xs ih =>
    obtain ⟨k, v⟩ := p
    simp only [BTrackerResponse.stepPairs] at h
    intro q hq
    simp only [List.mem_cons] at hq
    by_cases h1 : k = bs "peers"
    · rw [if_pos h1] at h
      rcases hq with hq | hq
      · subst hq; simp [trackerKeys, h1]
      · cases hd : decodePeersValue v with
        | error e => rw [hd] at h; simp [exceptErrBind] at h
        | ok ps => rw [hd] at h; rw [exceptOkBind] at h; exact ih h q hq
    · rw [if_neg h1] at h
      by_cases h2 : k = bs "peers6"
      · rw [if_pos h2] at h
        rcases hq with hq | hq
        · subst hq; simp [trackerKeys, h2]
        · cases hd : decodeBytesObj v with
          | error e => rw [hd] at h; simp [exceptErrBind] at h
          | ok s =>
            rw [hd] at h
            rw [exceptOkBind] at h
            cases hp : parse_compact_ipv6_peer_list s with
            | error e => rw [hp] at h; simp [exceptErrBind] at h
            | ok ps => rw [hp] at h; rw [exceptOkBind] at h; exact ih h q hq
      · rw [if_neg h2] at h
        by_cases h3 : k = bs "interval"
        · rw [if_pos h3] at h
          rcases hq with hq | hq
          · subst hq; simp [trackerKeys, h3]
          · cases hd : decodeU64Obj v with
            | error e => rw [hd] at h; simp [exceptErrBind] at h
            | ok i => rw [hd] at h; rw [exceptOkBind] at h; exact ih h q hq
        · rw [if_neg h3] at h
          by_cases h4 : k = bs "complete"
          · rw [if_pos h4] at h
            rcases hq with hq | hq
            · subst hq; simp [trackerKeys, h4]
            · cases hd : decodeU64Obj v with
              | error e => rw [hd] at h; simp [exceptErrBind] at h
              | ok i => rw [hd] at h; rw [exceptOkBind] at h; exact ih h q hq
          · rw [if_neg h4] at h
            by_cases h5 : k = bs "incomplete"
            · rw [if_pos h5] at h
              rcases hq with hq | hq
              · subst hq; simp [trackerKeys, h5]
              · cases hd : decodeU64Obj v with
                | error e => rw [hd] at h; simp [exceptErrBind] at h
                | ok i => rw [hd] at h; rw [exceptOkBind] at h; exact ih h q hq
            · rw [if_neg h5] at h
              simp at h

/-- Running the peer pair loop over a concatenation: when the first part
succeeds, the loop continues on the second from the reached state. -/
theorem peerStepPairs_append_ok
    {xs : List (List Byte × BencodeValue)} {st st' : PeerAcc}
    (h : BPeer.stepPairs xs st = .ok st')
    (ys : List (List Byte × BencodeValue)) :
    BPeer.stepPairs (xs ++ ys) st = BPeer.stepPairs ys st' := by
  induction xs generalizing st with
  | nil =>
    simp only [BPeer.stepPairs, Except.ok.injEq] at h
    rw [List.nil_append, h]
  | cons p xs ih =>
    obtain ⟨k, v⟩ := p
    simp only [BPeer.stepPairs, List.cons_append] at h ⊢
    by_cases h1 : k = bs "ip"
    · rw [if_pos h1] at h ⊢
      cases hd : decodeIpValue v with
      | error e => rw [hd] at h; simp [exceptErrBind] at h
      | ok ipv =>
        rw [hd] at h
        rw [exceptOkBind] at h ⊢
        exact ih h
    · rw [if_neg h1] at h ⊢
      by_cases h2 : k = bs "peer id"
      · rw [if_pos h2] at h ⊢
        cases hd : decodeStringObj v with
        | error e => rw [hd] at h; simp [exceptErrBind] at h
        | ok s =>
          rw [hd] at h
          rw [exceptOkBind] at h ⊢
          exact ih h
      · rw [if_neg h2] at h ⊢
        by_cases h3 : k = bs "port"
        · rw [if_pos h3] at h ⊢
          cases hd : decodeU16Obj v with
          | error e => rw [hd] at h; simp [exceptErrBind] at h
          | ok p =>
            rw [hd] at h
            rw [exceptOkBind] at h ⊢
            exact ih h
        · rw [if_neg h3] at h
          simp at h

/-- A state reached by the peer pair loop only ever saw known keys. -/
theorem peerStepPairs_ok_keys
    {xs : List (List Byte × BencodeValue)} {st st' : PeerAcc}
    (h : BPeer.stepPairs xs st = .ok st') :
    ∀ p ∈ xs, p.1 ∈ peerKeys := by
  induction xs generalizing st with
  | nil => simp
  | cons p xs ih =>
    obtain ⟨k, v⟩ := p
    simp only [BPeer.stepPairs] at h
    intro q hq
    simp only [List.mem_cons] at hq
    by_cases h1 : k = bs "ip"
    · rw [if_pos h1] at h
      rcases hq with hq | hq
      · subst hq; simp [peerKeys, h1]
      · cases hd : decodeIpValue v with
        | error e => rw [hd] at h; simp [exceptErrBind] at h
        | ok ipv =>
          rw [hd] at h
          rw [exceptOkBind] at h
          exact ih h q hq
    · rw [if_neg h1] at h
      by_cases h2 : k = bs "peer id"
      · rw [if_pos h2] at h
        rcases hq with hq | hq
        · subst hq; simp [peerKeys, h2]
        · cases hd : decodeStringObj v with
          | error e => rw [hd] at h; simp [exceptErrBind] at h
          | ok s =>
            rw [hd] at h
            rw [exceptOkBind] at h
            exact ih h q hq
      · rw [if_neg h2] at h
        by_cases h3 : k = bs "port"
        · rw [if_pos h3] at h
          rcases hq with hq | hq
          · subst hq; simp [peerKeys, h3]
          · cases hd : decodeU16Obj v with
            | error e => rw [hd] at h; simp [exceptErrBind] at h
            | ok p =>
              rw [hd] at h
              rw [exceptOkBind] at h
              exact ih h q hq
        · rw [if_neg h3] at h
          simp at h

theorem getD_take_of_lt {α : Type} (l : List α) (n i : Nat) (h : i < n)
    (d : α) : (List.take n l).getD i d = l.getD i d := by
  induction l generalizing n i with
  | nil => simp
  | cons a t ih =>
    cases n with
    | zero => omega
    | succ n' =>
      cases i with
      | zero => simp
      | succ i' =>
        rw [List.take_succ_cons, List.getD_cons_succ, List.getD_cons_succ]
        exact ih n' i' (by omega) 

theorem getD_drop_eq {α : Type} (l : List α) (m i : Nat) (d : α) :
    (List.drop m l).getD i d = l.getD (m + i) d := by
  induction l generalizing m with
  | nil => simp
  | cons a t ih =>
    cases m with
    | zero => simp
    | succ m' =>
      rw [List.drop_succ_cons, ih]
      have : m' + 1 + i = (m' + i) + 1 := by omega
      rw [this, List.getD_cons_succ]

/-- C8: for every `Info` value, `total_piece_count` is the length of
`pieces` divided by 20 truncating, `total_piece_size_bytes` is `piece_size`
times the piece count, and `metainfo_total_size_bytes` is the sum of the
file entry lengths when `files` is present, else the single `length` when
present, else 0. -/
theorem c8_derived_fields (info : BInfo) :
    info.total_piece_count = ((info.pieces.length / 20 : Nat) : Int) ∧
    info.total_piece_size_bytes = info.piece_size * info.total_piece_count ∧
    (∀ fl, info.files = some fl →
      info.metainfo_total_size_bytes = (fl.map BFile.length).sum) ∧
    (info.files = none → ∀ len, info.length = some len →
      info.metainfo_total_size_bytes = len) ∧
    (info.files = none → info.length = none →
      info.metainfo_total_size_bytes = 0) := by
  refine ⟨?_, rfl, ?_, ?_, ?_⟩
  · unfold BInfo.total_piece_count
    omega
  · intro fl hfl
    unfold BInfo.metainfo_total_size_bytes
    rw [hfl]
  · intro hf len hl
    unfold BInfo.metainfo_total_size_bytes
    rw [hf, hl]
  · intro hf hl
    unfold BInfo.metainfo_total_size_bytes
    rw [hf, hl]

/-- An `Info` with two file entries (lengths 100 and 250) and two 20-byte
piece hashes. -/
def infoFilesEx : BInfo :=
  { files := some [⟨100, [bs "a"]⟩, ⟨250, [bs "b"]⟩], length := none,
    name := bs "n", piece_size := 16384,
    pieces := List.replicate 40 65, priv := none, source := none }

/-- A single-file `Info` of length 5. -/
def infoLenEx : BInfo :=
  { files := none, length := some 5, name := bs "n", piece_size := 16384,
    pieces := [], priv := none, source := none }

/-- An `Info` with neither `files` nor `length` set. -/
def infoNoneEx : BInfo :=
  { files := none, length := none, name := bs "n", piece_size := 16384,
    pieces := [], priv := none, source := none }

theorem c8_derived_fields_witness :
    infoFilesEx.metainfo_total_size_bytes =
      (([⟨100, [bs "a"]⟩, ⟨250, [bs "b"]⟩] : List BFile).map
        BFile.length).sum ∧
    infoLenEx.metainfo_total_size_bytes = 5 ∧
    infoNoneEx.metainfo_total_size_bytes = 0 ∧
    infoFilesEx.total_piece_count =
      ((infoFilesEx.pieces.length / 20 : Nat) : Int) :=
  ⟨(c8_derived_fields infoFilesEx).2.2.1 _ rfl,
   (c8_derived_fields infoLenEx).2.2.2.1 rfl 5 rfl,
   (c8_derived_fields infoNoneEx).2.2.2.2 rfl rfl,
   (c8_derived_fields infoFilesEx).1⟩

/-- C4: the info-hash computation is deterministic and, when it returns a
digest, the digest is exactly 20 bytes; with the modelled encoder it always
returns one. -/
theorem c4_compute_hash (info : BInfo) :
    info.compute_hash = info.compute_hash ∧
    ∃ h, info.compute_hash = Except.ok h ∧ h.length = 20 := by
  constructor
  · rfl
  · unfold BInfo.compute_hash
    exact ⟨_, rfl, sha1_length _⟩

/-- C2: a compact IPv4 peer byte string of length `6*n` decodes to exactly
`n` peers in source order — the `k`-th peer's address is bytes
`6k..6k+4`, its port the big-endian 16-bit value of bytes `6k+4..6k+6`, and
its peer id empty — while a length not divisible by 6 fails with the
invalid-compact-length error. -/
theorem c2_compact_ipv4 (b : List Byte) :
    (b.length % 6 ≠ 0 → parse_compact_ipv4_peer_list b =
      .error (.malformedContent
        "incomplete compact ipv4 peers list (length is not divisible by 6)"))
    ∧
    (∀ n, b.length = 6 * n →
      ∃ l, parse_compact_ipv4_peer_list b = .ok l ∧ l.length = n ∧
        ∀ k, k < n → l.get? k = some
          { ip := .v4 ((b.drop (6 * k)).take 4), peer_id := [],
            port := 256 * b.getD (6 * k + 4) 0 + b.getD (6 * k + 5) 0 }) := by
  constructor
  · intro h
    simp [parse_compact_ipv4_peer_list, h]
  · intro n hn
    have h0 : b.length % 6 = 0 := by omega
    simp only [parse_compact_ipv4_peer_list, h0, ne_eq,
      not_true_eq_false, if_false]
    refine ⟨_, rfl, ?_, ?_⟩
    · rw [List.length_map]
      exact chunksOf_length 6 n (by omega) b hn
    · intro k hk
      rw [List.get?_map, chunksOf_get 6 n k (by omega) b hn hk]
      simp only [Option.map_some', Option.some.injEq]
      have hip : ((b.drop (6 * k)).take 6).take 4 = (b.drop (6 * k)).take 4
        := by
        rw [List.take_take]
        norm_num
      have hp4 : ((b.drop (6 * k)).take 6).getD 4 0 = b.getD (6 * k + 4) 0
        := by
        rw [getD_take_of_lt _ 6 4 (by omega), getD_drop_eq]
      have hp5 : ((b.drop (6 * k)).take 6).getD 5 0 = b.getD (6 * k + 5) 0
        := by
        rw [getD_take_of_lt _ 6 5 (by omega), getD_drop_eq]
      rw [hip, hp4, hp5]

theorem c2_compact_ipv4_witness :
    (∃ l, parse_compact_ipv4_peer_list [127, 0, 0, 1, 26, 225] = .ok l ∧
      l.length = 1 ∧ ∀ k, k < 1 → l.get? k = some
        { ip := .v4 ((([127, 0, 0, 1, 26, 225] : List Byte).drop
            (6 * k)).take 4),
          peer_id := [],
          port := 256 * ([127, 0, 0, 1, 26, 225] : List Byte).getD
              (6 * k + 4) 0 +
            ([127, 0, 0, 1, 26, 225] : List Byte).getD (6 * k + 5) 0 }) ∧
    parse_compact_ipv4_peer_list [1, 2, 3, 4, 5, 6, 7] =
      .error (.malformedContent
        "incomplete compact ipv4 peers list (length is not divisible by 6)")
    ∧
    parse_compact_ipv4_peer_list [127, 0, 0, 1, 26, 225] =
      .ok [{ ip := .v4 [127, 0, 0, 1], peer_id := [], port := 6881 }] :=
  ⟨(c2_compact_ipv4 [127, 0, 0, 1, 26, 225]).2 1 rfl,
   (c2_compact_ipv4 [1, 2, 3, 4, 5, 6, 7]).1 (by decide),
   rfl⟩

/-- C5: a `peers6` value must be a byte string whose length is an exact
multiple of 18 — each 18-byte record being a 16-byte IPv6 address followed
by a big-endian 16-bit port — else decoding fails with the
invalid-compact-length error (also when reached through a `peers6` pair of
the response dictionary); on success the decoded peer list is the
IPv4/explicit peers first, in source order, followed by the IPv6 peers in
source order. -/
theorem c5_compact_ipv6_append
    (s : List Byte)
    (pairs pre rest : List (List Byte × BencodeValue))
    (st st' : TrackerAcc) (base : List BPeer) (itv : Nat)
    (hlen : s.length % 18 ≠ 0)
    (hst : BTrackerResponse.stepPairs pairs ⟨none, none, none, none, none⟩ =
      .ok st)
    (hb : st.peers = some base) (hi : st.interval = some itv)
    (hst' : BTrackerResponse.stepPairs pre ⟨none, none, none, none, none⟩ =
      .ok st') :
    parse_compact_ipv6_peer_list s = .error (.malformedContent
      "incomplete compact ipv4 peers list (length is not divisible by 18)")
    ∧
    (∀ n s2, s2.length = 18 * n →
      ∃ l, parse_compact_ipv6_peer_list s2 = .ok l ∧ l.length = n ∧
        ∀ k, k < n → l.get? k = some
          { ip := .v6 ((s2.drop (18 * k)).take 16), peer_id := [],
            port := 256 * s2.getD (18 * k + 16) 0 +
              s2.getD (18 * k + 17) 0 }) ∧
    BTrackerResponse.decode_bencode_object (.dictionary pairs) =
      .ok { peers := base ++ st.peers6.getD [], interval := itv,
            complete := st.complete, incomplete := st.incomplete } ∧
    BTrackerResponse.decode_bencode_object
        (.dictionary (pre ++ (bs "peers6", .byteString s) :: rest)) =
      .error (.malformedContent
        "incomplete compact ipv4 peers list (length is not divisible by 18)")
    := by
  refine ⟨?_, ?_, ?_, ?_⟩
  · simp [parse_compact_ipv6_peer_list, hlen]
  · intro n s2 hn
    have h0 : s2.length % 18 = 0 := by omega
    simp only [parse_compact_ipv6_peer_list, h0, ne_eq,
      not_true_eq_false, if_false]
    refine ⟨_, rfl, ?_, ?_⟩
    · rw [List.length_map]
      exact chunksOf_length 18 n (by omega) s2 hn
    · intro k hk
      rw [List.get?_map, chunksOf_get 18 n k (by omega) s2 hn hk]
      simp only [Option.map_some', Option.some.injEq]
      have hip : ((s2.drop (18 * k)).take 18).take 16 =
          (s2.drop (18 * k)).take 16 := by
        rw [List.take_take]
        norm_num
      have hp16 : ((s2.drop (18 * k)).take 18).getD 16 0 =
          s2.getD (18 * k + 16) 0 := by
        rw [getD_take_of_lt _ 18 16 (by omega), getD_drop_eq]
      have hp17 : ((s2.drop (18 * k)).take 18).getD 17 0 =
          s2.getD (18 * k + 17) 0 := by
        rw [getD_take_of_lt _ 18 17 (by omega), getD_drop_eq]
      rw [hip, hp16, hp17]
  · simp only [BTrackerResponse.decode_bencode_object]
    rw [hst, exceptOkBind, hb, hi]
    simp only [requirePeers, requireInterval, exceptOkBind,
      mergePeers6_eq_getD]
  · simp only [BTrackerResponse.decode_bencode_object]
    rw [trackerStepPairs_append_ok hst']
    simp only [BTrackerResponse.stepPairs]
    rw [if_neg (by decide), if_pos trivial]
    have hbytes : decodeBytesObj (.byteString s) = .ok s := rfl
    rw [hbytes, exceptOkBind]
    have hparse : parse_compact_ipv6_peer_list s = .error (.malformedContent
        "incomplete compact ipv4 peers list (length is not divisible by 18)")
      := by
      simp [parse_compact_ipv6_peer_list, hlen]
    rw [hparse]
    rfl

/-- A tracker response dictionary with an interval, one compact IPv4 peer,
and one compact IPv6 peer. -/
def c5pairs : List (List Byte × BencodeValue) :=
  [(bs "interval", .integer 1800),
   (bs "peers", .byteString [127, 0, 0, 1, 26, 225]),
   (bs "peers6", .byteString (List.replicate 16 0 ++ [26, 225]))]

/-- The loop state after processing `c5pairs`. -/
def c5st : TrackerAcc :=
  { peers := some [{ ip := .v4 [127, 0, 0, 1], peer_id := [], port := 6881 }],
    peers6 :=
      some [{ ip := .v6 (List.replicate 16 0), peer_id := [], port := 6881 }],
    interval := some 1800, complete := none, incomplete := none }

/-- A response start consisting of the interval pair alone. -/
def c5pre : List (List Byte × BencodeValue) := [(bs "interval", .integer 1800)]

/-- The loop state after processing `c5pre`. -/
def c5stPre : TrackerAcc :=
  { peers := none, peers6 := none, interval := some 1800, complete := none,
    incomplete := none }

theorem c5_compact_ipv6_append_witness :
    BTrackerResponse.decode_bencode_object (.dictionary c5pairs) =
      .ok { peers :=
              [{ ip := .v4 [127, 0, 0, 1], peer_id := [], port := 6881 }] ++
                c5st.peers6.getD [],
            interval := 1800, complete := none, incomplete := none } ∧
    BTrackerResponse.decode_bencode_object
        (.dictionary (c5pre ++ (bs "peers6", .byteString [0]) :: [])) =
      .error (.malformedContent
        "incomplete compact ipv4 peers list (length is not divisible by 18)")
    ∧
    (∃ l, parse_compact_ipv6_peer_list (List.replicate 16 0 ++ [26, 225]) =
      .ok l ∧ l.length = 1 ∧
      ∀ k, k < 1 → l.get? k = some
        { ip := .v6 (((List.replicate 16 0 ++ [26, 225]).drop
            (18 * k)).take 16),
          peer_id := [],
          port := 256 * (List.replicate 16 0 ++ [26, 225]).getD
              (18 * k + 16) 0 +
            (List.replicate 16 0 ++ [26, 225]).getD (18 * k + 17) 0 }) := by
  obtain ⟨h1, h2, h3, h4⟩ := c5_compact_ipv6_append [0] c5pairs c5pre []
    c5st c5stPre
    [{ ip := .v4 [127, 0, 0, 1], peer_id := [], port := 6881 }] 1800
    (by decide) rfl rfl rfl rfl
  exact ⟨h3, h4, h2 1 (List.replicate 16 0 ++ [26, 225]) rfl⟩

/-- The top-level metainfo keys that `BMetainfo::from_bencode_value` reads;
any other key is never looked up. -/
def metainfoKeys : List (List Byte) :=
  [bs "announce", bs "announce-list", bs "comment", bs "created by",
   bs "creation date", bs "encoding", bs "info"]

/-- C10: a tracker response dictionary containing a key other than `peers`,
`peers6`, `interval`, `complete`, `incomplete` fails to decode — with the
unexpected-field error naming that key once the pairs before it have been
processed — and an explicit peer dictionary likewise fails on a key other
than `ip`, `peer id`, `port`; Metainfo decoding instead silently ignores an
unknown top-level key. -/
theorem c10_unknown_keys
    (pre rest pre₂ rest₂ : List (List Byte × BencodeValue))
    (k k₂ km : List Byte) (v v₂ vm : BencodeValue)
    (st : TrackerAcc) (stp : PeerAcc)
    (d : List (List Byte × BencodeValue))
    (hst : BTrackerResponse.stepPairs pre ⟨none, none, none, none, none⟩ =
      .ok st)
    (hk : k ∉ trackerKeys)
    (hstp : BPeer.stepPairs pre₂ ⟨none, none, none⟩ = .ok stp)
    (hk₂ : k₂ ∉ peerKeys)
    (hkm : km ∉ metainfoKeys) :
    BTrackerResponse.decode_bencode_object
        (.dictionary (pre ++ (k, v) :: rest)) =
      .error (.unexpectedField k) ∧
    (∀ pairs, (∃ p ∈ pairs, p.1 ∉ trackerKeys) →
      ∃ e, BTrackerResponse.decode_bencode_object (.dictionary pairs) =
        .error e) ∧
    BPeer.decode_bencode_object (.dictionary (pre₂ ++ (k₂, v₂) :: rest₂)) =
      .error (.unexpectedField k₂) ∧
    (∀ pairs, (∃ p ∈ pairs, p.1 ∉ peerKeys) →
      ∃ e, BPeer.decode_bencode_object (.dictionary pairs) = .error e) ∧
    BMetainfo.from_bencode_value (.dictionary ((km, vm) :: d)) =
      BMetainfo.from_bencode_value (.dictionary d) := by
  simp only [trackerKeys, List.mem_cons, List.mem_singleton,
    List.not_mem_nil, or_false] at hk
  push_neg at hk
  obtain ⟨hk1, hk2, hk3, hk4, hk5⟩ := hk
  simp only [peerKeys, List.mem_cons, List.mem_singleton,
    List.not_mem_nil, or_false] at hk₂
  push_neg at hk₂
  obtain ⟨hp1, hp2, hp3⟩ := hk₂
  simp only [metainfoKeys, List.mem_cons, List.mem_singleton,
    List.not_mem_nil, or_false] at hkm
  push_neg at hkm
  obtain ⟨hm1, hm2, hm3, hm4, hm5, hm6, hm7⟩ := hkm
  refine ⟨?_, ?_, ?_, ?_, ?_⟩
  · simp only [BTrackerResponse.decode_bencode_object]
    rw [trackerStepPairs_append_ok hst]
    simp only [BTrackerResponse.stepPairs]
    rw [if_neg hk1, if_neg hk2, if_neg hk3, if_neg hk4, if_neg hk5]
    rfl
  · intro pairs hpairs
    obtain ⟨p, hp, hpk⟩ := hpairs
    cases hsp : BTrackerResponse.stepPairs pairs
        ⟨none, none, none, none, none⟩ with
    | error e =>
      refine ⟨e, ?_⟩
      simp only [BTrackerResponse.decode_bencode_object]
      rw [hsp]
      rfl
    | ok st'' =>
      exact absurd (trackerStepPairs_ok_keys hsp p hp) hpk
  · simp only [BPeer.decode_bencode_object]
    rw [peerStepPairs_append_ok hstp]
    simp only [BPeer.stepPairs]
    rw [if_neg hp1, if_neg hp2, if_neg hp3]
    rfl
  · intro pairs hpairs
    obtain ⟨p, hp, hpk⟩ := hpairs
    cases hsp : BPeer.stepPairs pairs ⟨none, none, none⟩ with
    | error e =>
      refine ⟨e, ?_⟩
      simp only [BPeer.decode_bencode_object]
      rw [hsp]
      rfl
    | ok st'' =>
      exact absurd (peerStepPairs_ok_keys hsp p hp) hpk
  · simp only [BMetainfo.from_bencode_value]
    rw [get_utf8_value_cons_ne hm1, anounce_list_cons_ne hm2,
      get_optional_utf8_value_cons_ne hm3,
      get_optional_utf8_value_cons_ne hm4, decodeCreationDate_cons_ne hm5,
      decodeEncodingField_cons_ne hm6, decodeInfoField_cons_ne hm7]

/-- A minimal valid metainfo dictionary: an announce URL and a single-file
info dictionary. -/
def mdict0 : List (List Byte × BencodeValue) :=
  [(bs "announce", .byteString (bs "a")),
   (bs "info", .dictionary
     [(bs "length", .integer 5),
      (bs "name", .byteString (bs "n")),
      (bs "piece length", .integer 16384),
      (bs "pieces", .byteString [])])]

theorem c10_unknown_keys_witness :
    BTrackerResponse.decode_bencode_object
        (.dictionary ([] ++ (bs "foo", .integer 0) :: [])) =
      .error (.unexpectedField (bs "foo")) ∧
    BPeer.decode_bencode_object
        (.dictionary ([] ++ (bs "bar", .integer 0) :: [])) =
      .error (.unexpectedField (bs "bar")) ∧
    BMetainfo.from_bencode_value
        (.dictionary ((bs "baz", .integer 7) :: mdict0)) =
      BMetainfo.from_bencode_value (.dictionary mdict0) := by
  obtain ⟨h1, h2, h3, h4, h5⟩ := c10_unknown_keys [] [] [] []
    (bs "foo") (bs "bar") (bs "baz") (.integer 0) (.integer 0) (.integer 7)
    ⟨none, none, none, none, none⟩ ⟨none, none, none⟩ mdict0
    rfl (by decide) rfl (by decide) (by decide)
  exact ⟨h1, h3, h5⟩

/-- C3 (failing input): the decode paths do not always return a single
error value — on a metainfo document whose announce-list contains a byte
string that is not valid UTF-8 the decoder panics (the source calls
`expect`), and likewise for a file `path` entry; the claimed
error-or-value-only behaviour is violated at these inputs. -/
theorem c3_decode_panics :
    BMetainfo.from_bytes
        (bs "d8:announce1:a13:announce-listll1:" ++ [255] ++ bs "eee") =
      .error (.panicked "Invalid UTF-8 in announce-list") ∧
    BFile.from_bencode_dict
        [(bs "length", .integer 1), (bs "path", .list [.byteString [255]])] =
      .error (.panicked "Invalid UTF-8 in path") :=
  ⟨rfl, rfl⟩

/-- C7 (amended): appending any extra bytes after an input that parses as
one complete top-level dictionary makes `BMetainfo::from_bytes` fail with
its trailing-data error, and always makes `BTrackerResponse::from_bytes`
fail — with the trailing-data error when the trailing bytes begin a
readable bencode token (the second `next_object` returns `Some`), and with
the propagated decoder parse error when they do not (it returns `Err`). -/
theorem c7_trailing_data (b extra : List Byte) (v : BencodeValue)
    (d : List (List Byte × BencodeValue))
    (hb : parse_bencode b = some (v, []))
    (hd : v = .dictionary d)
    (hx : extra ≠ []) :
    BMetainfo.from_bytes (b ++ extra) =
      .error (.err "Erroneous data at the end of the metainfo file") ∧
    (∃ e, BTrackerResponse.from_bytes (b ++ extra) = .error e) ∧
    (next_object_outcome extra = .obj →
      BTrackerResponse.from_bytes (b ++ extra) =
        .error "Erroneous data at the end of the tracker response.") ∧
    (next_object_outcome extra = .err →
      BTrackerResponse.from_bytes (b ++ extra) =
        .error "Failed to parse bencode object") := by
  have hp := parse_bencode_frame hb extra
  refine ⟨?_, ?_, ?_, ?_⟩
  · simp [BMetainfo.from_bytes, hp, hx]
  · cases ho : next_object_outcome extra with
    | eof => exact absurd ho (next_object_outcome_ne_eof hx)
    | obj =>
      exact ⟨"Erroneous data at the end of the tracker response.",
        by simp [BTrackerResponse.from_bytes, hp, ho]⟩
    | err =>
      exact ⟨"Failed to parse bencode object",
        by simp [BTrackerResponse.from_bytes, hp, ho]⟩
  · intro ho
    simp [BTrackerResponse.from_bytes, hp, ho]
  · intro ho
    simp [BTrackerResponse.from_bytes, hp, ho]

/-- C7 (counterexample to the claim as stated): after the complete
dictionary `de`, the trailing byte `0x30` begins an incomplete byte-string
token, so the tracker decoder propagates the second `next_object` parse
error instead of producing the trailing-data message. -/
theorem c7_trailing_data_counterexample :
    BTrackerResponse.from_bytes (bs "de" ++ [48]) =
      .error "Failed to parse bencode object" ∧
    BTrackerResponse.from_bytes (bs "de" ++ [48]) ≠
      .error "Erroneous data at the end of the tracker response." := by
  constructor
  · rfl
  · intro hcontra
    have h1 : BTrackerResponse.from_bytes (bs "de" ++ [48]) =
        .error "Failed to parse bencode object" := rfl
    rw [h1] at hcontra
    injection hcontra with h2
    exact absurd h2 (by decide)

theorem c7_trailing_data_witness :
    BMetainfo.from_bytes (bs "de" ++ [48]) =
      .error (.err "Erroneous data at the end of the metainfo file") ∧
    (∃ e, BTrackerResponse.from_bytes (bs "de" ++ [48]) = .error e) ∧
    BTrackerResponse.from_bytes (bs "de" ++ [48]) =
      .error "Failed to parse bencode object" ∧
    BTrackerResponse.from_bytes (bs "de" ++ bs "i0e") =
      .error "Erroneous data at the end of the tracker response." :=
  ⟨(c7_trailing_data (bs "de") [48] (.dictionary []) [] rfl rfl
      (by decide)).1,
   (c7_trailing_data (bs "de") [48] (.dictionary []) [] rfl rfl
      (by decide)).2.1,
   (c7_trailing_data (bs "de") [48] (.dictionary []) [] rfl rfl
      (by decide)).2.2.2 rfl,
   (c7_trailing_data (bs "de") (bs "i0e") (.dictionary []) [] rfl rfl
      (by decide)).2.2.1 rfl⟩

/-- C1: with `name`, `piece length` and `pieces` present and well-typed
(and `private`, `source`, and the values of `length`/`files` themselves
well-typed where present), `BInfo::from_bencode_dict` fails with the
conflicting-fields error exactly when both or neither of `length` and
`files` are present, and succeeds when exactly one of them is. -/
theorem c1_length_files_exclusive
    (d : List (List Byte × BencodeValue))
    (nm pc : List Byte) (ps : Int)
    (hname : bfind d (bs "name") = some (.byteString nm))
    (hnmu : validUtf8 nm = true)
    (hps : bfind d (bs "piece length") = some (.integer ps))
    (hpc : bfind d (bs "pieces") = some (.byteString pc))
    (hpriv : bfind d (bs "private") = none ∨
      ∃ i, bfind d (bs "private") = some (.integer i))
    (hsrc : ∃ os, get_optional_utf8_value d (bs "source") = .ok os)
    (hfiles : bfind d (bs "files") = none ∨
      ∃ l fl, bfind d (bs "files") = some (.list l) ∧
        decodeFileItems l = .ok fl)
    (hlen : bfind d (bs "length") = none ∨
      ∃ i, bfind d (bs "length") = some (.integer i)) :
    (((bfind d (bs "files")).isSome ↔ (bfind d (bs "length")).isSome) →
      BInfo.from_bencode_dict d = .error (.err
        "Metainfo files must contain the field \x27length\x27 or \x27files\x27 (not both or none)"))
    ∧
    (¬((bfind d (bs "files")).isSome ↔ (bfind d (bs "length")).isSome) →
      ∃ info, BInfo.from_bencode_dict d = .ok info) := by
  have hnm' : get_utf8_value d (bs "name") = .ok nm := by
    simp [get_utf8_value, hname, hnmu]
  obtain ⟨os, hos⟩ := hsrc
  rcases hpriv with hpv | ⟨pi, hpv⟩ <;>
    rcases hfiles with hf | ⟨l, fl, hf, hfl⟩ <;>
    rcases hlen with hl | ⟨li, hl⟩ <;>
    constructor
  all_goals intro hiff
  · simp only [BInfo.from_bencode_dict, hf, hl, hnm', hps, hpc, hpv, hos,
      exceptOkBind]
    rfl
  · exact absurd (by simp [hf, hl]) hiff
  · exact absurd hiff (by simp [hf, hl])
  · simp only [BInfo.from_bencode_dict, hf, hl, hnm', hps, hpc, hpv, hos,
      exceptOkBind]
    exact ⟨_, rfl⟩
  · exact absurd hiff (by simp [hf, hl])
  · simp only [BInfo.from_bencode_dict, hf, hfl, hl, hnm', hps, hpc, hpv,
      hos, exceptOkBind]
    exact ⟨_, rfl⟩
  · simp only [BInfo.from_bencode_dict, hf, hfl, hl, hnm', hps, hpc, hpv,
      hos, exceptOkBind]
    rfl
  · exact absurd (by simp [hf, hl]) hiff
  · simp only [BInfo.from_bencode_dict, hf, hl, hnm', hps, hpc, hpv, hos,
      exceptOkBind]
    rfl
  · exact absurd (by simp [hf, hl]) hiff
  · exact absurd hiff (by simp [hf, hl])
  · simp only [BInfo.from_bencode_dict, hf, hl, hnm', hps, hpc, hpv, hos,
      exceptOkBind]
    exact ⟨_, rfl⟩
  · exact absurd hiff (by simp [hf, hl])
  · simp only [BInfo.from_bencode_dict, hf, hfl, hl, hnm', hps, hpc, hpv,
      hos, exceptOkBind]
    exact ⟨_, rfl⟩
  · simp only [BInfo.from_bencode_dict, hf, hfl, hl, hnm', hps, hpc, hpv,
      hos, exceptOkBind]
    rfl
  · exact absurd (by simp [hf, hl]) hiff

/-- An info dictionary carrying both `files` and `length`. -/
def dBoth : List (List Byte × BencodeValue) :=
  [(bs "files", .list [.dictionary
      [(bs "length", .integer 1),
       (bs "path", .list [.byteString (bs "x")])]]),
   (bs "length", .integer 5),
   (bs "name", .byteString (bs "n")),
   (bs "piece length", .integer 16384),
   (bs "pieces", .byteString [])]

/-- An info dictionary carrying exactly one of `files`/`length`. -/
def dOne : List (List Byte × BencodeValue) :=
  [(bs "length", .integer 5),
   (bs "name", .byteString (bs "n")),
   (bs "piece length", .integer 16384),
   (bs "pieces", .byteString [])]

theorem c1_length_files_exclusive_witness :
    BInfo.from_bencode_dict dBoth = .error (.err
      "Metainfo files must contain the field \x27length\x27 or \x27files\x27 (not both or none)")
    ∧
    (∃ info, BInfo.from_bencode_dict dOne = .ok info) :=
  ⟨(c1_length_files_exclusive dBoth (bs "n") [] 16384 rfl rfl rfl rfl
      (Or.inl rfl) ⟨none, rfl⟩
      (Or.inr ⟨_, [⟨1, [bs "x"]⟩], rfl, rfl⟩)
      (Or.inr ⟨5, rfl⟩)).1 (by decide),
   (c1_length_files_exclusive dOne (bs "n") [] 16384 rfl rfl rfl rfl
      (Or.inl rfl) ⟨none, rfl⟩ (Or.inl rfl) (Or.inr ⟨5, rfl⟩)).2
      (by decide)⟩

/-- Inversion of a successful metainfo decode: every field step succeeded
with the corresponding field of the result. -/
theorem from_bencode_value_inv
    {d : List (List Byte × BencodeValue)} {m : BMetainfo}
    (h : BMetainfo.from_bencode_value (.dictionary d) = .ok m) :
    get_utf8_value d (bs "announce") = .ok m.announce ∧
    BMetainfo.from_bencode_value_anounce_list d = .ok m.announce_list ∧
    get_optional_utf8_value d (bs "comment") = .ok m.comment ∧
    get_optional_utf8_value d (bs "created by") = .ok m.created_by ∧
    decodeCreationDate d = .ok m.created_on ∧
    decodeEncodingField d = .ok m.encoding ∧
    decodeInfoField d = .ok m.info := by
  simp only [BMetainfo.from_bencode_value] at h
  cases h1 : get_utf8_value d (bs "announce") with
  | error e => rw [h1, exceptErrBind] at h; exact absurd h (by simp)
  | ok a =>
  rw [h1, exceptOkBind] at h
  cases h2 : BMetainfo.from_bencode_value_anounce_list d with
  | error e => rw [h2, exceptErrBind] at h; exact absurd h (by simp)
  | ok al =>
  rw [h2, exceptOkBind] at h
  cases h3 : get_optional_utf8_value d (bs "comment") with
  | error e => rw [h3, exceptErrBind] at h; exact absurd h (by simp)
  | ok c =>
  rw [h3, exceptOkBind] at h
  cases h4 : get_optional_utf8_value d (bs "created by") with
  | error e => rw [h4, exceptErrBind] at h; exact absurd h (by simp)
  | ok cb =>
  rw [h4, exceptOkBind] at h
  cases h5 : decodeCreationDate d with
  | error e => rw [h5, exceptErrBind] at h; exact absurd h (by simp)
  | ok co =>
  rw [h5, exceptOkBind] at h
  cases h6 : decodeEncodingField d with
  | error e => rw [h6, exceptErrBind] at h; exact absurd h (by simp)
  | ok enc =>
  rw [h6, exceptOkBind] at h
  cases h7 : decodeInfoField d with
  | error e => rw [h7, exceptErrBind] at h; exact absurd h (by simp)
  | ok i =>
  rw [h7, exceptOkBind] at h
  simp only [Except.ok.injEq] at h
  subst h
  exact ⟨by simpa using h1, by simpa using h2, by simpa using h3,
    by simpa using h4, by simpa using h5, by simpa using h6,
    by simpa using h7⟩

/-- C6: on a metainfo dictionary whose other fields decode, adding an
`encoding` key with a valid-UTF-8 value succeeds exactly when the value is
ASCII-case-insensitively equal to `utf-8`, and otherwise fails with the
unsupported-encoding error. -/
theorem c6_encoding_case_insensitive
    (d : List (List Byte × BencodeValue)) (m : BMetainfo) (e : List Byte)
    (h : BMetainfo.from_bencode_value (.dictionary d) = .ok m)
    (henc : bfind d (bs "encoding") = none)
    (hv : validUtf8 e = true) :
    (asciiLower e = bs "utf-8" →
      BMetainfo.from_bencode_value
          (.dictionary ((bs "encoding", .byteString e) :: d)) =
        .ok { m with encoding := some e }) ∧
    (asciiLower e ≠ bs "utf-8" →
      BMetainfo.from_bencode_value
          (.dictionary ((bs "encoding", .byteString e) :: d)) =
        .error (.err ("only UTF-8 encoding is supported; encountered " ++
          "encoding \x27" ++ strOfBytes e ++ "\x27 instead"))) := by
  obtain ⟨h1, h2, h3, h4, h5, h6, h7⟩ := from_bencode_value_inv h
  have r1 := get_utf8_value_cons_ne
    (show bs "encoding" ≠ bs "announce" by decide) (.byteString e) d
  have r2 := anounce_list_cons_ne
    (show bs "encoding" ≠ bs "announce-list" by decide) (.byteString e) d
  have r3 := get_optional_utf8_value_cons_ne
    (show bs "encoding" ≠ bs "comment" by decide) (.byteString e) d
  have r4 := get_optional_utf8_value_cons_ne
    (show bs "encoding" ≠ bs "created by" by decide) (.byteString e) d
  have r5 := decodeCreationDate_cons_ne
    (show bs "encoding" ≠ bs "creation date" by decide) (.byteString e) d
  have r7 := decodeInfoField_cons_ne
    (show bs "encoding" ≠ bs "info" by decide) (.byteString e) d
  have rENC : decodeEncodingField ((bs "encoding", .byteString e) :: d) =
      if asciiLower e ≠ bs "utf-8" then
        .error (.err ("only UTF-8 encoding is supported; encountered " ++
          "encoding \x27" ++ strOfBytes e ++ "\x27 instead"))
      else Except.ok (some e) := by
    simp [decodeEncodingField, get_optional_utf8_value, bfind, hv]
  constructor
  · intro hcase
    have hENCval :
        decodeEncodingField ((bs "encoding", .byteString e) :: d) =
          .ok (some e) := by
      rw [rENC, if_neg (by simp [hcase])]
    simp only [BMetainfo.from_bencode_value, r1, r2, r3, r4, r5, hENCval,
      r7, h1, h2, h3, h4, h5, h7, exceptOkBind]
  · intro hcase
    have hENCval :
        decodeEncodingField ((bs "encoding", .byteString e) :: d) =
          .error (.err ("only UTF-8 encoding is supported; encountered " ++
            "encoding \x27" ++ strOfBytes e ++ "\x27 instead")) := by
      rw [rENC, if_pos hcase]
    simp only [BMetainfo.from_bencode_value, r1, r2, r3, r4, r5, hENCval,
      h1, h2, h3, h4, h5, exceptOkBind, exceptErrBind]

/-- C9: on a metainfo dictionary whose other fields decode, adding an
`encoding` key whose value is a byte string that is not valid UTF-8 does
not fail — the helper's invalid-UTF-8 error is discarded and the decoded
metainfo is the same as without the key, with `encoding = none`. -/
theorem c9_invalid_utf8_encoding_ignored
    (d : List (List Byte × BencodeValue)) (m : BMetainfo) (e : List Byte)
    (h : BMetainfo.from_bencode_value (.dictionary d) = .ok m)
    (henc : bfind d (bs "encoding") = none)
    (hv : validUtf8 e = false) :
    BMetainfo.from_bencode_value
        (.dictionary ((bs "encoding", .byteString e) :: d)) = .ok m ∧
    m.encoding = none := by
  obtain ⟨h1, h2, h3, h4, h5, h6, h7⟩ := from_bencode_value_inv h
  have hENC0 : decodeEncodingField d = .ok none := by
    simp [decodeEncodingField, get_optional_utf8_value, henc]
  have hmenc : m.encoding = none := by
    rw [h6] at hENC0
    simpa using hENC0
  have r1 := get_utf8_value_cons_ne
    (show bs "encoding" ≠ bs "announce" by decide) (.byteString e) d
  have r2 := anounce_list_cons_ne
    (show bs "encoding" ≠ bs "announce-list" by decide) (.byteString e) d
  have r3 := get_optional_utf8_value_cons_ne
    (show bs "encoding" ≠ bs "comment" by decide) (.byteString e) d
  have r4 := get_optional_utf8_value_cons_ne
    (show bs "encoding" ≠ bs "created by" by decide) (.byteString e) d
  have r5 := decodeCreationDate_cons_ne
    (show bs "encoding" ≠ bs "creation date" by decide) (.byteString e) d
  have r7 := decodeInfoField_cons_ne
    (show bs "encoding" ≠ bs "info" by decide) (.byteString e) d
  have hENCval : decodeEncodingField ((bs "encoding", .byteString e) :: d)
      = .ok none := by
    simp [decodeEncodingField, get_optional_utf8_value, bfind, hv]
  refine ⟨?_, hmenc⟩
  simp only [BMetainfo.from_bencode_value, r1, r2, r3, r4, r5, hENCval, r7,
    h1, h2, h3, h4, h5, h7, exceptOkBind]
  rw [← hmenc]

/-- The decode of `mdict0`. -/
def m0 : BMetainfo :=
  { announce := bs "a", announce_list := none, comment := none,
    created_by := none, created_on := none, encoding := none,
    info := { files := none, length := some 5, name := bs "n",
              piece_size := 16384, pieces := [], priv := none,
              source := none } }

theorem c6_encoding_case_insensitive_witness :
    BMetainfo.from_bencode_value
        (.dictionary ((bs "encoding", .byteString (bs "UTF-8")) :: mdict0))
      = .ok { m0 with encoding := some (bs "UTF-8") } ∧
    BMetainfo.from_bencode_value
        (.dictionary ((bs "encoding", .byteString (bs "utf-8")) :: mdict0))
      = .ok { m0 with encoding := some (bs "utf-8") } ∧
    BMetainfo.from_bencode_value
        (.dictionary ((bs "encoding", .byteString (bs "Utf-8")) :: mdict0))
      = .ok { m0 with encoding := some (bs "Utf-8") } ∧
    BMetainfo.from_bencode_value
        (.dictionary
          ((bs "encoding", .byteString (bs "ISO-8859-1")) :: mdict0)) =
      .error (.err ("only UTF-8 encoding is supported; encountered " ++
        "encoding \x27" ++ strOfBytes (bs "ISO-8859-1") ++ "\x27 instead"))
    :=
  ⟨(c6_encoding_case_insensitive mdict0 m0 (bs "UTF-8") rfl rfl
      (by decide)).1 (by decide),
   (c6_encoding_case_insensitive mdict0 m0 (bs "utf-8") rfl rfl
      (by decide)).1 (by decide),
   (c6_encoding_case_insensitive mdict0 m0 (bs "Utf-8") rfl rfl
      (by decide)).1 (by decide),
   (c6_encoding_case_insensitive mdict0 m0 (bs "ISO-8859-1") rfl rfl
      (by decide)).2 (by decide)⟩

theorem c9_invalid_utf8_encoding_ignored_witness :
    BMetainfo.from_bencode_value
        (.dictionary ((bs "encoding", .byteString [255]) :: mdict0)) =
      .ok m0 ∧
    m0.encoding = none :=
  c9_invalid_utf8_encoding_ignored mdict0 m0 [255] rfl rfl rfl
